import Mathlib

/-!
Verification of the Gomoku engine (`board.py`, `gomoku3.py`).

The Python source is shallowly embedded: the board is a flat `List Color`
mirroring the padded one-dimensional numpy array, mutation becomes explicit
state passing, and fallible operations (numpy `IndexError`, Python
`AttributeError`, `NameError`, `assert`, unbounded `while` loops) are
modelled in an `Except RunErr` monad, with `while` loops given explicit
fuel (`RunErr.noFuel` marks fuel exhaustion, which theorems rule out).

Constants and helpers imported from `board_util.py` (a module of this
repository that is not part of the sources given) are modelled from the
spec where indicated.
-/

/-- Cell states / move colors.  Modelled from the spec: the shared constants
`EMPTY, BLACK, WHITE, BORDER` live in `board_util.py` (not in the given
sources).  The numeric encoding is pinned by `board.py` itself:
`BlockOpenFour` tests cells against the literal `0` to mean EMPTY, and
line 602 computes the opponent as `WHITE + BLACK - current_player`. -/
abbrev Color := Nat

def EMPTY : Color := 0

def BLACK : Color := 1

def WHITE : Color := 2

def BORDER : Color := 3

/-- Modelled from the spec: `MAXSIZE` is the shared maximum-board-size
constant from `board_util.py`; the upper bound of legal construction sizes. -/
def MAXSIZE : Nat := 25

/-- Modelled from the spec: `GoBoardUtil.opponent` (color negation) from
`board_util.py`; `board.py` line 602 inlines the same formula. -/
def opponent (c : Color) : Color := WHITE + BLACK - c

/-- Modelled from the spec: `is_black_white` from `board_util.py` — the only
values legal as a move color are BLACK and WHITE. -/
def is_black_white (c : Color) : Bool := c = BLACK || c = WHITE

/-- Modelled from the spec: `coord_to_point(row, col, boardsize)` from
`board_util.py` maps a 1-indexed coordinate to the flat index `row·NS + col`
with stride `NS = boardsize + 1`. -/
def coord_to_point (row col size : Nat) : Int := (row * (size + 1) + col : Nat)

/-- Runtime faults of the embedded Python code. -/
inductive RunErr where
  | indexErr    -- numpy IndexError: flat index out of range
  | attrErr     -- AttributeError: attribute never assigned
  | nameErr     -- NameError: reference to an unbound variable
  | assertFail  -- failed `assert`
  | typeErr     -- TypeError (e.g. `len(None)`)
  | valueErr    -- ValueError (e.g. `max([])`)
  | noFuel      -- an unbounded `while` loop exceeded the modelling fuel
  deriving Repr, DecidableEq

/-- Read of a numpy 1-d array at a possibly negative index: negative indices
in `[-len, -1]` wrap around, indices outside `[-len, len)` are an
IndexError (`none`). -/
def npGet (l : List Color) (i : Int) : Option Color :=
  if 0 ≤ i then l.get? i.toNat
  else if (l.length : Int) + i < 0 then none
  else l.get? ((l.length : Int) + i).toNat

/-- Write to a numpy 1-d array at a possibly negative index (callers read the
cell first, so the out-of-range case is unreachable where this is used). -/
def npSet (l : List Color) (i : Int) (c : Color) : List Color :=
  if 0 ≤ i then l.set i.toNat c
  else l.set ((l.length : Int) + i).toNat c

/-- Python `range(a, b, step)` (step ≥ 1), as the list of produced values. -/
def pyRange (a b step : Nat) : List Nat :=
  (List.range ((b - a + step - 1) / step)).map (fun k => a + step * k)

/-- The board state of `GoBoard.__init__` / `reset`.  `rows`, `cols`,
`diags` are `Option`s because for `size < 5` the Python attributes are never
assigned (accessing them raises `AttributeError`, modelled as `none`).
`last_move`/`last2_move` hold `none` for Python `None` and `some none` for a
recorded PASS. -/
structure GoBoard where
  size : Nat
  NS : Nat
  WE : Nat
  ko_recapture : Option Int
  last_move : Option (Option Int)
  last2_move : Option (Option Int)
  current_player : Color
  maxpoint : Nat
  board : List Color
  rows : Option (List (List Int))
  cols : Option (List (List Int))
  diags : Option (List (List Int))
  deriving Repr

def GoBoard.row_start (b : GoBoard) (row : Nat) : Nat := row * b.NS + 1

def GoBoard.get_color (b : GoBoard) (point : Int) : Option Color :=
  npGet b.board point

/-- One Python slice assignment `board[start : start + n] = EMPTY`,
element by element. -/
def setRange (l : List Color) (start : Nat) : Nat → List Color
  | 0 => l
  | n + 1 => setRange (l.set start EMPTY) (start + 1) n

/-- `_initialize_empty_points`: fills every in-bounds row segment with EMPTY. -/
def init_empty_points (size NS : Nat) (l : List Color) : List Color :=
  (pyRange 1 (size + 1) 1).foldl (fun acc row => setRange acc (row * NS + 1) size) l

/-- The diagonal walk of `calculate_rows_cols_diags`:
`while get_color(pt) == EMPTY: collect pt; pt += δ`.  Fuel bounds the loop;
on the freshly initialized boards this is called on, the BORDER ring stops
the walk long before the fuel runs out and before any out-of-range read. -/
def diagWalk (board : List Color) (δ : Int) : Nat → Int → List Int
  | 0, _ => []
  | fuel + 1, pt =>
    match npGet board pt with
    | some v => if v = EMPTY then pt :: diagWalk board δ fuel (pt + δ) else []
    | none => []

/-- Appends `d` to the accumulator when it has length ≥ 5 (the
`if len(diag) >= 5: self.diags.append(diag)` step). -/
def keepIfLong (acc : List (List Int)) (d : List Int) : List (List Int) :=
  if 5 ≤ d.length then acc ++ [d] else acc

/-- The row lines built by `calculate_rows_cols_diags`. -/
def rowsOf (b : GoBoard) : List (List Int) :=
  (pyRange 1 (b.size + 1) 1).map (fun i =>
    (pyRange (b.row_start i) (b.row_start i + b.size) 1).map (fun p => (p : Int)))

/-- The column lines built by `calculate_rows_cols_diags`. -/
def colsOf (b : GoBoard) : List (List Int) :=
  (pyRange 1 (b.size + 1) 1).map (fun i =>
    (pyRange (b.row_start 1 + i - 1) (b.row_start b.size + i) b.NS).map
      (fun p => (p : Int)))

/-- The diagonal lines built by `calculate_rows_cols_diags`: the three
successive accumulation loops (SE diagonals from row 1; SE and NE diagonals
from column 1, rows 2..size; NE diagonals from the last row). -/
def diagsOf (b : GoBoard) : List (List Int) :=
  let fuel := b.maxpoint + 1
  let d1 := (pyRange (b.row_start 1) (b.row_start 1 + b.size) 1).foldl
    (fun acc (i : Nat) => keepIfLong acc (diagWalk b.board (b.NS + 1) fuel (i : Int))) []
  let d2 := (pyRange (b.row_start 1 + b.NS) (b.row_start b.size + 1) b.NS).foldl
    (fun acc (i : Nat) =>
      keepIfLong (keepIfLong acc (diagWalk b.board (b.NS + 1) fuel (i : Int)))
        (diagWalk b.board (-1 * b.NS + 1) fuel (i : Int))) d1
  (pyRange (b.row_start b.size + 1) (b.row_start b.size + 1 + b.size) 1).foldl
    (fun acc (i : Nat) => keepIfLong acc (diagWalk b.board (-1 * b.NS + 1) fuel (i : Int))) d2

/-- `calculate_rows_cols_diags`: returns early for `size < 5` (leaving the
three attributes unassigned), otherwise derives all rows, columns and the
length-≥5 diagonals from the current board array. -/
def GoBoard.calculate_rows_cols_diags (b : GoBoard) : GoBoard :=
  if b.size < 5 then b
  else { b with rows := some (rowsOf b), cols := some (colsOf b), diags := some (diagsOf b) }

/-- The board record as assembled by `reset(size)` just before its final
`calculate_rows_cols_diags` call: all scalar fields set, the array filled
with BORDER and then the playable row segments with EMPTY. -/
def rawBoard (size : Nat) : GoBoard :=
  { size := size
    NS := size + 1
    WE := 1
    ko_recapture := none
    last_move := none
    last2_move := none
    current_player := BLACK
    maxpoint := size * size + 3 * (size + 1)
    board := init_empty_points size (size + 1)
      (List.replicate (size * size + 3 * (size + 1)) BORDER)
    rows := none
    cols := none
    diags := none }

/-- `reset(size)`: the start state (callers guarantee `2 ≤ size ≤ MAXSIZE`,
enforced in Python by the `__init__` assert). -/
def GoBoard.reset (size : Nat) : GoBoard :=
  (rawBoard size).calculate_rows_cols_diags

/-- `GoBoard.__init__`: `reset` (which itself ends in
`calculate_rows_cols_diags`) followed by the second, idempotent
`calculate_rows_cols_diags` call. -/
def mkBoard (size : Nat) : GoBoard :=
  (GoBoard.reset size).calculate_rows_cols_diags

/-- Modelled from the spec: `where1d` from `board_util.py` — boolean-mask to
index extraction, i.e. the ascending indices at which the mask holds.  Used
as `where1d(self.board == c)`. -/
def where1d (l : List Color) (c : Color) : List Int :=
  (List.range l.length).filterMap
    (fun i => if l.getD i BORDER = c then some (i : Int) else none)

def GoBoard.get_empty_points (b : GoBoard) : List Int := where1d b.board EMPTY

/-- `copy()`: builds a fresh `GoBoard(size)` and overwrites the scalar fields
and the array with copies. -/
def GoBoard.copy (b : GoBoard) : GoBoard :=
  let nb := mkBoard b.size
  { nb with
    ko_recapture := b.ko_recapture
    last_move := b.last_move
    last2_move := b.last2_move
    current_player := b.current_player
    board := b.board }

/-- `play_move(point, color)` (`point = none` is PASS).  The capture /
suicide / ko logic of the source is commented out; the active path is pure
stone placement. -/
def GoBoard.play_move (b : GoBoard) (point : Option Int) (color : Color) :
    Except RunErr (Bool × GoBoard) :=
  if ¬ is_black_white color then .error .assertFail
  else
    match point with
    | none =>
      .ok (true, { b with
        ko_recapture := none
        current_player := opponent color
        last2_move := b.last_move
        last_move := some none })
    | some p =>
      match npGet b.board p with
      | none => .error .indexErr
      | some v =>
        if v ≠ EMPTY then .ok (false, b)
        else
          .ok (true, { b with
            board := npSet b.board p color
            current_player := opponent color
            last2_move := b.last_move
            last_move := some (some p) })

/-- The streak scan of `has_five_in_list`: running `(prev, counter)` state,
returning the streak color as soon as `counter == 5 and prev != EMPTY`. -/
def scan5 (b : GoBoard) (prev : Color) (counter : Nat) : List Int → Except RunErr Color
  | [] => .ok EMPTY
  | stone :: rest =>
    match b.get_color stone with
    | none => .error .indexErr
    | some v =>
      let counter' := if v = prev then counter + 1 else 1
      let prev' := if v = prev then prev else v
      if counter' = 5 ∧ prev' ≠ EMPTY then .ok prev'
      else scan5 b prev' counter' rest

/-- `has_five_in_list(list)`: the scan seeded with `prev = BORDER`,
`counter = 1`. -/
def GoBoard.has_five_in_list (b : GoBoard) (l : List Int) : Except RunErr Color :=
  scan5 b BORDER 1 l

/-- One of the three loops of `detect_five_in_a_row`: returns the first
non-EMPTY `has_five_in_list` result over the given lines, else EMPTY. -/
def scanLines (b : GoBoard) : List (List Int) → Except RunErr Color
  | [] => .ok EMPTY
  | l :: rest =>
    match b.has_five_in_list l with
    | .error e => .error e
    | .ok result => if result ≠ EMPTY then .ok result else scanLines b rest

/-- `detect_five_in_a_row()`: scans rows, then cols, then diags, returning
the first non-EMPTY line result; accessing an attribute that was never
derived raises AttributeError. -/
def GoBoard.detect_five_in_a_row (b : GoBoard) : Except RunErr Color :=
  match b.rows with
  | none => .error .attrErr
  | some rs =>
    match scanLines b rs with
    | .error e => .error e
    | .ok r =>
      if r ≠ EMPTY then .ok r
      else
        match b.cols with
        | none => .error .attrErr
        | some cs =>
          match scanLines b cs with
          | .error e => .error e
          | .ok c =>
            if c ≠ EMPTY then .ok c
            else
              match b.diags with
              | none => .error .attrErr
              | some ds => scanLines b ds

/-- One sense of a directional probe (`while True: start += δ; ...` of
`checkrow`/`checkcol`/`checkd1`/`checkd2`): returns the number of matching
stones passed, the space contribution (1 iff the stopping cell is EMPTY),
the index of the stopping cell and its content. -/
def walkStep (board : List Color) (δ : Int) (color : Color) :
    Nat → Int → Except RunErr (Nat × Nat × Int × Color)
  | 0, _ => .error .noFuel
  | fuel + 1, start =>
    let j := start + δ
    match npGet board j with
    | none => .error .indexErr
    | some v =>
      if v = color then
        (walkStep board δ color fuel j).map (fun r => (r.1 + 1, r.2))
      else if v = EMPTY then .ok (0, 1, j, v)
      else .ok (0, 0, j, v)

/-- Both senses of one probe axis: `samecolor` (seeded at 1) and `space`. -/
def probe (b : GoBoard) (δ : Int) (start : Int) (color : Color) :
    Except RunErr (Nat × Nat) := do
  let r₁ ← walkStep b.board δ color (b.maxpoint + 1) start
  let r₂ ← walkStep b.board (-δ) color (b.maxpoint + 1) start
  .ok (1 + r₁.1 + r₂.1, r₁.2.1 + r₂.2.1)

def GoBoard.checkrow (b : GoBoard) (start : Int) (color : Color) :
    Except RunErr (Nat × Nat) :=
  probe b 1 start color

def GoBoard.checkcol (b : GoBoard) (start : Int) (color : Color) :
    Except RunErr (Nat × Nat) :=
  probe b b.NS start color

def GoBoard.checkd1 (b : GoBoard) (start : Int) (color : Color) :
    Except RunErr (Nat × Nat) :=
  probe b (b.NS + 1) start color

def GoBoard.checkd2 (b : GoBoard) (start : Int) (color : Color) :
    Except RunErr (Nat × Nat) :=
  probe b (b.NS - 1) start color

/-- The first (`start += δ`) loop of the extended probes
(`checkrow2`/`checkcol2`/`checkd12`/`checkd22`): additionally threads the
direction flag `d` (set to 1 on every matching stone) and reports the
stopping cell index when that cell is EMPTY (`s1`, else -1). -/
def walkFwd (board : List Color) (δ : Int) (color : Color) :
    Nat → Int → Int → Except RunErr (Nat × Nat × Int × Int)
  | 0, _, _ => .error .noFuel
  | fuel + 1, start, d =>
    let j := start + δ
    match npGet board j with
    | none => .error .indexErr
    | some v =>
      if v = color then
        (walkFwd board δ color fuel j 1).map (fun r => (r.1 + 1, r.2))
      else if v = EMPTY then .ok (0, 1, d, j)
      else .ok (0, 0, d, -1)

/-- The second (`start1 -= δ`) loop of the extended probes: on each matching
stone `d` becomes 0 if it was 1 and -1 otherwise; reports `s2`. -/
def walkBwd (board : List Color) (δ : Int) (color : Color) :
    Nat → Int → Int → Except RunErr (Nat × Nat × Int × Int)
  | 0, _, _ => .error .noFuel
  | fuel + 1, start1, d =>
    let j := start1 - δ
    match npGet board j with
    | none => .error .indexErr
    | some v =>
      if v = color then
        (walkBwd board δ color fuel j (if d = 1 then 0 else -1)).map
          (fun r => (r.1 + 1, r.2))
      else if v = EMPTY then .ok (0, 1, d, j)
      else .ok (0, 0, d, -1)

/-- Both loops of an extended probe: `(samecolor, space, d, s1, s2)`. -/
def probe2 (b : GoBoard) (δ : Int) (start : Int) (color : Color) :
    Except RunErr (Nat × Nat × Int × Int × Int) := do
  let r₁ ← walkFwd b.board δ color (b.maxpoint + 1) start 0
  let r₂ ← walkBwd b.board δ color (b.maxpoint + 1) start r₁.2.2.1
  .ok (1 + r₁.1 + r₂.1, r₁.2.1 + r₂.2.1, r₂.2.2.1, r₁.2.2.2, r₂.2.2.2)

def GoBoard.checkrow2 (b : GoBoard) (start : Int) (color : Color) :
    Except RunErr (Nat × Nat × Int × Int × Int) :=
  probe2 b 1 start color

def GoBoard.checkcol2 (b : GoBoard) (start : Int) (color : Color) :
    Except RunErr (Nat × Nat × Int × Int × Int) :=
  probe2 b b.NS start color

def GoBoard.checkd12 (b : GoBoard) (start : Int) (color : Color) :
    Except RunErr (Nat × Nat × Int × Int × Int) :=
  probe2 b (b.NS + 1) start color

def GoBoard.checkd22 (b : GoBoard) (start : Int) (color : Color) :
    Except RunErr (Nat × Nat × Int × Int × Int) :=
  probe2 b (b.NS - 1) start color

/-- The per-point body of `Win` / `BlockWin`: probe all four axes for
`color` and keep `i` when some axis reaches `run ≥ 5`. -/
def winBody (b : GoBoard) (color : Color) (acc : List Int) (i : Int) :
    Except RunErr (List Int) := do
  let rowr ← b.checkrow i color
  let colr ← b.checkcol i color
  let d1r ← b.checkd1 i color
  let d2r ← b.checkd2 i color
  if 5 ≤ rowr.1 ∨ 5 ≤ colr.1 ∨ 5 ≤ d1r.1 ∨ 5 ≤ d2r.1 then .ok (acc ++ [i])
  else .ok acc

def foldPoints (f : List Int → Int → Except RunErr (List Int)) :
    List Int → List Int → Except RunErr (List Int)
  | acc, [] => .ok acc
  | acc, i :: rest => do
    let acc' ← f acc i
    foldPoints f acc' rest

/-- `Win()`: empty points at which `current_player` completes five. -/
def GoBoard.Win (b : GoBoard) : Except RunErr (List Int) :=
  foldPoints (winBody b b.current_player) [] b.get_empty_points

/-- `BlockWin()`: the same probes run for the opponent of `current_player`. -/
def GoBoard.BlockWin (b : GoBoard) : Except RunErr (List Int) :=
  foldPoints (winBody b (WHITE + BLACK - b.current_player)) [] b.get_empty_points

/-- The per-point body of `OpenFour`: keep `i` when some axis (first match
in the row / col / d1 / d2 `elif` chain) yields `run == 4` and `space == 2`. -/
def openFourBody (b : GoBoard) (color : Color) (acc : List Int) (i : Int) :
    Except RunErr (List Int) := do
  let rowr ← b.checkrow i color
  let colr ← b.checkcol i color
  let d1r ← b.checkd1 i color
  let d2r ← b.checkd2 i color
  if rowr.1 = 4 ∧ rowr.2 = 2 then .ok (acc ++ [i])
  else if colr.1 = 4 ∧ colr.2 = 2 then .ok (acc ++ [i])
  else if d1r.1 = 4 ∧ d1r.2 = 2 then .ok (acc ++ [i])
  else if d2r.1 = 4 ∧ d2r.2 = 2 then .ok (acc ++ [i])
  else .ok acc

def GoBoard.OpenFour (b : GoBoard) : Except RunErr (List Int) :=
  foldPoints (openFourBody b b.current_player) [] b.get_empty_points

/-- The one-sided (`run == 4, space == 1`) sub-case of `BlockOpenFour` for a
stride `step`: mirrors the source exactly, including the row branch that
tests `board[i-5]` but then appends `i+5` (`board.py` lines 646-648 append
`i+5` in the `rd == -1` arm; the col/diag branches append the tested point).
`posPt`/`negPt` are what is appended, `posTst`/`negTst` what is tested. -/
def oneSidedCase (b : GoBoard) (i : Int) (d : Int)
    (posTst posPt negTst negPt : Int) (acc : List Int) :
    Except RunErr (List Int) :=
  if d = 1 then
    match npGet b.board posTst with
    | none => .error .indexErr
    | some v => if v = 0 then .ok (acc ++ [posPt, i]) else .ok acc
  else if d = -1 then
    match npGet b.board negTst with
    | none => .error .indexErr
    | some v => if v = 0 then .ok (acc ++ [negPt, i]) else .ok acc
  else .ok acc

/-- The per-point body of `BlockOpenFour`. -/
def blockOpenFourBody (b : GoBoard) (color : Color) (acc : List Int) (i : Int) :
    Except RunErr (List Int) := do
  let rowr ← b.checkrow2 i color
  let colr ← b.checkcol2 i color
  let d1r ← b.checkd12 i color
  let d2r ← b.checkd22 i color
  let ns : Int := b.NS
  let mut1 ←
    if rowr.1 = 4 ∧ rowr.2.1 = 1 then
      oneSidedCase b i rowr.2.2.1 (i + 5) (i + 5) (i - 5) (i + 5) acc
    else .ok acc
  let mut2 ←
    if colr.1 = 4 ∧ colr.2.1 = 1 then
      oneSidedCase b i colr.2.2.1 (i + 5 * ns) (i + 5 * ns) (i - 5 * ns) (i - 5 * ns) mut1
    else .ok mut1
  let mut3 ←
    if d1r.1 = 4 ∧ d1r.2.1 = 1 then
      oneSidedCase b i d1r.2.2.1 (i + 5 * (ns + 1)) (i + 5 * (ns + 1))
        (i - 5 * (ns + 1)) (i - 5 * (ns + 1)) mut2
    else .ok mut2
  let mut4 ←
    if d2r.1 = 4 ∧ d2r.2.1 = 1 then
      oneSidedCase b i d2r.2.2.1 (i + 5 * (ns - 1)) (i + 5 * (ns - 1))
        (i - 5 * (ns - 1)) (i - 5 * (ns - 1)) mut3
    else .ok mut3
  let mut5 := if rowr.1 = 4 ∧ rowr.2.1 = 2 then mut4 ++ [i] else mut4
  let mut6 := if colr.1 = 4 ∧ colr.2.1 = 2 then mut5 ++ [i] else mut5
  let mut7 := if d1r.1 = 4 ∧ d1r.2.1 = 2 then mut6 ++ [i] else mut6
  let mut8 := if d2r.1 = 4 ∧ d2r.2.1 = 2 then mut7 ++ [i] else mut7
  let mut9 := if rowr.1 = 4 ∧ rowr.2.1 = 2 ∧ rowr.2.2.1 = 0 then
      mut8 ++ [rowr.2.2.2.1, rowr.2.2.2.2] else mut8
  let mut10 := if colr.1 = 4 ∧ colr.2.1 = 2 ∧ colr.2.2.1 = 0 then
      mut9 ++ [colr.2.2.2.1, colr.2.2.2.2] else mut9
  let mut11 := if d1r.1 = 4 ∧ d1r.2.1 = 2 ∧ d1r.2.2.1 = 0 then
      mut10 ++ [d1r.2.2.2.1, d1r.2.2.2.2] else mut10
  let mut12 := if d2r.1 = 4 ∧ d2r.2.1 = 2 ∧ d2r.2.2.1 = 0 then
      mut11 ++ [d2r.2.2.2.1, d2r.2.2.2.2] else mut11
  .ok mut12

/-- `BlockOpenFour()`: aggregates over all empty points and de-duplicates
(`list(set(move_list))`; modelled keeping first occurrences — the claims
about the result are stated via membership, which the set conversion
preserves). -/
def GoBoard.BlockOpenFour (b : GoBoard) : Except RunErr (List Int) := do
  let l ← foldPoints (blockOpenFourBody b (WHITE + BLACK - b.current_player)) []
    b.get_empty_points
  .ok l.eraseDups

/-!  `gomoku3.py`: the move selector / simulation engine.  Randomness is
determinized by an explicit oracle: each `random.choice(moves)` (and the
choice inside `generate_random_move`) consumes the head of the oracle list
`o` and picks `moves[head % len(moves)]` (an exhausted oracle keeps picking
index 0).  All theorems about this code either hold for every oracle or
exhibit a concrete one. -/

abbrev Oracle := List Nat

/-- `random.choice(seq)`: IndexError on an empty sequence. -/
def randChoice (l : List Int) (o : Oracle) : Except RunErr (Int × Oracle) :=
  if l.isEmpty then .error .indexErr
  else .ok (l.getD (o.headD 0 % l.length) 0, o.tail)

/-- Modelled from the spec: `GoBoardUtil.generate_random_move` from
`board_util.py` — a uniformly random legal move, or `None` when no legal
move exists (under the active rules a move is legal iff the point is
EMPTY). -/
def generate_random_move (b : GoBoard) (_color : Color) (o : Oracle) :
    Option Int × Oracle :=
  let moves := b.get_empty_points
  if moves.isEmpty then (none, o)
  else (some (moves.getD (o.headD 0 % moves.length) 0), o.tail)

/-- `get_order(board, color)`: the first non-empty list among `Win`,
`BlockWin`, `OpenFour`, `BlockOpenFour`, all empty points; `none` models the
implicit Python `None` when even the empty-point list is empty.  (The
`color` parameter is unused in the source as well.) -/
def get_order (b : GoBoard) (_color : Color) : Except RunErr (Option (List Int)) := do
  let l₁ ← b.Win
  if l₁ ≠ [] then .ok (some l₁)
  else do
    let l₂ ← b.BlockWin
    if l₂ ≠ [] then .ok (some l₂)
    else do
      let l₃ ← b.OpenFour
      if l₃ ≠ [] then .ok (some l₃)
      else do
        let l₄ ← b.BlockOpenFour
        if l₄ ≠ [] then .ok (some l₄)
        else
          let l₅ := b.get_empty_points
          if l₅ ≠ [] then .ok (some l₅) else .ok none

/-- `sim_for_one(board, color)`: the random-policy rollout.  After choosing
`moves = generate_random_move(...)`, the source plays `board.play_move(move,
board.current_player)` — but `move` is never bound in this function (only
`moves` is), so reaching that line raises `NameError`; the recursive call
below it is unreachable. -/
def sim_for_one (b : GoBoard) (color : Color) (o : Oracle) :
    Nat → Except RunErr (Int × GoBoard × Oracle)
  | 0 => .error .noFuel
  | _fuel + 1 => do
    let result ← b.detect_five_in_a_row
    if result = color then .ok (1, b, o)
    else if result = opponent color then .ok (-1, b, o)
    else
      match generate_random_move b b.current_player o with
      | (none, o') => .ok (0, b, o')
      | (some _, _) => .error .nameErr

/-- `sim_for_one_rule(board, color)`: the rule-based rollout; recursion is
fuel-bounded (each recursive step has played one more stone). -/
def sim_for_one_rule (b : GoBoard) (color : Color) (o : Oracle) :
    Nat → Except RunErr (Int × GoBoard × Oracle)
  | 0 => .error .noFuel
  | fuel + 1 => do
    let result ← b.detect_five_in_a_row
    if result = color then .ok (1, b, o)
    else if result = opponent color then .ok (-1, b, o)
    else do
      let moves ← get_order b b.current_player
      match moves with
      | none => .ok (0, b, o)
      | some ms => do
        let (move, o') ← randChoice ms o
        let (_, b') ← b.play_move (some move) b.current_player
        sim_for_one_rule b' color o' fuel

/-- The inner `for j in range(self.NN)` loop of `simulation`: note that the
SAME `temp` board is threaded through all `NN` trials (the copy is made
once per candidate, outside this loop), exactly as in the source; the
boolean result of `temp.play_move(move, color)` is discarded. -/
def simTrials (ruleBased : Bool) (move : Int) (color : Color) (fuel : Nat) :
    Nat → GoBoard → Oracle → Except RunErr (Nat × GoBoard × Oracle)
  | 0, temp, o => .ok (0, temp, o)
  | j + 1, temp, o => do
    let (_, temp₁) ← temp.play_move (some move) color
    let (win, temp₂, o₁) ←
      if ruleBased then sim_for_one_rule temp₁ color o fuel
      else sim_for_one temp₁ color o fuel
    let (wins, temp₃, o₂) ← simTrials ruleBased move color fuel j temp₂ o₁
    .ok ((if win = 1 then 1 else 0) + wins, temp₃, o₂)

/-- The outer candidate loop of `simulation`: per candidate, one fresh copy
of `board`, then `NN` trials on that same copy; the score is `wins / NN`. -/
def simScores (ruleBased : Bool) (b : GoBoard) (color : Color) (NN fuel : Nat) :
    List Int → Oracle → Except RunErr (List ℚ × Oracle)
  | [], o => .ok ([], o)
  | move :: rest, o => do
    let temp := b.copy
    let (wins, _, o₁) ← simTrials ruleBased move color fuel NN temp o
    let (ss, o₂) ← simScores ruleBased b color NN fuel rest o₁
    .ok ((wins : ℚ) / (NN : ℚ) :: ss, o₂)

/-- `score.index(max(score))` and `legal_moves[bestIndex]`:
`max([])` raises ValueError. -/
def bestOf (legal_moves : List Int) (score : List ℚ) : Except RunErr Int :=
  match score with
  | [] => .error .valueErr
  | s :: ss =>
    let mx := ss.foldl max s
    .ok (legal_moves.getD (score.findIdx (fun q => q = mx)) 0)

/-- `simulation(board, color, policy)` of the `Gomoku` player (`self.NN` is
the configured trial count, default 10; `fuel` bounds each rollout).
Unknown policy strings fall through returning Python `None`. -/
def simulation (NN fuel : Nat) (b : GoBoard) (color : Color) (policy : String)
    (o : Oracle) : Except RunErr (Option Int) :=
  if policy = "random" then do
    let legal_moves := b.get_empty_points
    let (score, _) ← simScores false b color NN fuel legal_moves o
    let best ← bestOf legal_moves score
    .ok (some best)
  else if policy = "rule_based" then do
    let mvs ← get_order b color
    match mvs with
    | none => .error .typeErr
    | some legal_moves => do
      let (score, _) ← simScores true b color NN fuel legal_moves o
      let best ← bestOf legal_moves score
      .ok (some best)
  else .ok none

/-!  Concrete positions and the notions the claims quantify over. -/

/-- Plays a sequence of moves with `play_move`, stopping early on a Python
exception (never hit in the concrete positions below, where each move lands
on an EMPTY cell). -/
def playChain : GoBoard → List (Option Int × Color) → GoBoard
  | b, [] => b
  | b, (p, c) :: rest =>
    match b.play_move p c with
    | .ok (_, b') => playChain b' rest
    | .error _ => b

/-- Size-5 board reached by three WHITE moves at `(3,1) (3,2) (3,3)`
(indices 19, 20, 21); the player to move is BLACK, so the `BlockOpenFour`
probes run for WHITE. -/
def boardC1 : GoBoard :=
  playChain (mkBoard 5) [(some 19, WHITE), (some 20, WHITE), (some 21, WHITE)]

/-- The 9×9 scenario of the spec: BLACK stones at `(5,3) (5,4) (5,5)`
(indices 53, 54, 55), all other cells EMPTY, `current_player = BLACK`
(restored by a WHITE pass after the three BLACK placements). -/
def boardC7 : GoBoard :=
  playChain (mkBoard 9)
    [(some 53, BLACK), (some 54, BLACK), (some 55, BLACK), (none, WHITE)]

/-- Size-5 board whose only stones are five consecutive BLACK stones filling
row 2 (indices 13..17). -/
def boardFive : GoBoard :=
  playChain (mkBoard 5)
    [(some 13, BLACK), (some 14, BLACK), (some 15, BLACK), (some 16, BLACK),
     (some 17, BLACK)]

/-- A flat index addresses a playable cell of a size-`size` board iff it is
`r·NS + c` for 1-indexed row and column in `[1, size]`. -/
def playableN (size i : Nat) : Prop :=
  ∃ r c : Nat, 1 ≤ r ∧ r ≤ size ∧ 1 ≤ c ∧ c ≤ size ∧ i = r * (size + 1) + c

def playableI (size : Nat) (i : Int) : Prop :=
  0 ≤ i ∧ playableN size i.toNat

/-- Boards reachable in the sense of C8: constructed with a legal size and
mutated only by (successful or failing) `play_move` calls. -/
inductive Reachable : GoBoard → Prop where
  | init : ∀ s, 2 ≤ s → s ≤ MAXSIZE → Reachable (mkBoard s)
  | step : ∀ b p c r b', Reachable b → b.play_move p c = .ok (r, b') → Reachable b'

/-- The padding invariant: scalar fields are consistent and the BORDER ring
is intact — a cell holds BORDER exactly when its index is not playable. -/
def BoardInv (b : GoBoard) : Prop :=
  2 ≤ b.size ∧
  b.NS = b.size + 1 ∧
  b.maxpoint = b.size * b.size + 3 * (b.size + 1) ∧
  b.board.length = b.maxpoint ∧
  (∀ i : Nat, i < b.maxpoint →
    (playableN b.size i → b.board.getD i BORDER ≠ BORDER) ∧
    (¬ playableN b.size i → b.board.getD i BORDER = BORDER))

/-- Five consecutive cells of color `c` in line `l` starting at position
`i` — the "running same-color streak reaching length 5" of the spec. -/
def win5At (b : GoBoard) (l : List Int) (i : Nat) (c : Color) : Prop :=
  i + 5 ≤ l.length ∧ ∀ k, k < 5 → b.get_color (l.getD (i + k) 0) = some c

/-- Every point of the line reads back a non-BORDER cell (true of all
precomputed lines: they consist of playable points only). -/
def lineOK (b : GoBoard) (l : List Int) : Prop :=
  ∀ p ∈ l, ∃ v, b.get_color p = some v ∧ v ≠ BORDER

/-! Theorems. -/

set_option maxRecDepth 1000000

/-- C4 (amended form is the claim itself): playing any non-PASS point whose
cell is not EMPTY, with a legal move color, fails and returns the board
completely unchanged — grid, `current_player`, move history and ko marker
included, since the very same record is returned. -/
theorem C4_occupied_play_move_fails (b : GoBoard) (p : Int) (c : Color) (v : Color)
    (hc : is_black_white c) (hv : npGet b.board p = some v) (hne : v ≠ EMPTY) :
    b.play_move (some p) c = .ok (false, b) := by
  simp [GoBoard.play_move, hc, hv, hne]

/-- Witness for C4: on `boardC1`, point 19 holds a WHITE stone and the BLACK
move there fails without mutating anything. -/
theorem C4_occupied_play_move_fails_witness :
    boardC1.play_move (some 19) BLACK = .ok (false, boardC1) :=
  C4_occupied_play_move_fails boardC1 19 BLACK WHITE (by decide) rfl (by decide)

/-- C3, counterexample to the claim as stated: on a fresh board the player
to move is BLACK, yet `play_move(PASS, WHITE)` succeeds and leaves
`current_player = BLACK` — it is NOT set to the opponent of the player to
move before the call (which would be WHITE). -/
theorem C3_pass_counterexample :
    (mkBoard 5).current_player = BLACK ∧
    ((mkBoard 5).play_move none WHITE).map (fun r => r.2.current_player) =
      .ok BLACK ∧
    BLACK ≠ opponent BLACK :=
  ⟨rfl, rfl, by decide⟩

/-- C3, amended: `play_move(PASS, c)` always succeeds, clears the ko marker,
rotates the move history, leaves the grid untouched and sets
`current_player` to the opponent of the ARGUMENT color `c` — which toggles
the player to move exactly when `c` is the player to move. -/
theorem C3_pass_amended (b : GoBoard) (c : Color) (hc : is_black_white c) :
    b.play_move none c =
      .ok (true, { b with
        ko_recapture := none
        current_player := opponent c
        last2_move := b.last_move
        last_move := some none }) ∧
    (c = b.current_player → opponent c = opponent b.current_player) := by
  refine ⟨?_, fun h => by rw [h]⟩
  simp [GoBoard.play_move, hc]

/-- Witness for C3 (amended): a WHITE pass on the fresh size-5 board. -/
theorem C3_pass_amended_witness :
    (mkBoard 5).play_move none WHITE =
      .ok (true, { mkBoard 5 with
        ko_recapture := none
        current_player := opponent WHITE
        last2_move := (mkBoard 5).last_move
        last_move := some none }) :=
  (C3_pass_amended (mkBoard 5) WHITE (by decide)).1

/-- C1: evaluation of `BlockOpenFour` at the failing input.  On `boardC1`
(WHITE run at 19,20,21; BLACK to move) the extended row probe at the empty
point `i = 22` yields `run = 4`, `space = 1`, direction flag `-1` (the run
lies entirely in the negative sense), and the point five steps beyond the
open end, `i - 5 = 17`, is EMPTY.  The claim demands that both `17` and
`22` be added; the code instead returns `[27, 22]` — it appends
`i + 5 = 27` (a point in another row) and never adds `17`. -/
theorem C1_block_open_four_row_neg_bug :
    boardC1.current_player = BLACK ∧
    boardC1.get_color 17 = some EMPTY ∧
    boardC1.checkrow2 22 WHITE = .ok (4, 1, -1, 23, -1) ∧
    boardC1.BlockOpenFour = .ok [27, 22] ∧
    (17 : Int) ∉ ([27, 22] : List Int) ∧
    (22 : Int) - 5 = 17 ∧ (22 : Int) + 5 = 27 :=
  ⟨rfl, rfl, rfl, rfl, by decide, by decide, by decide⟩

/-- C7: the spec's 9×9 scenario.  With BLACK at `(5,3) (5,4) (5,5)` and
BLACK to move, `Win()` is empty and `OpenFour()` is exactly
`{(5,2), (5,6)}`. -/
theorem C7_win_openfour_scenario :
    boardC7.current_player = BLACK ∧
    boardC7.Win = .ok [] ∧
    boardC7.OpenFour = .ok [coord_to_point 5 2 9, coord_to_point 5 6 9] :=
  ⟨rfl, rfl, rfl⟩

/-- C2: evaluation at the failing input.  On the empty 5×5 board there are
25 candidate moves, so the claim requires 10 fresh-copy rollout trials per
candidate with score `wins/10`; instead, for every rollout oracle and every
fuel, `simulation(board, BLACK, "random")` aborts with a `NameError` as soon
as the first trial of the first candidate must play a rollout move
(`sim_for_one` references the unbound name `move`), and no candidate ever
receives a score. -/
theorem C2_simulation_random_name_error :
    (mkBoard 5).get_empty_points.length = 25 ∧
    ∀ (o : Oracle) (f : Nat),
      simulation 10 (f + 1) (mkBoard 5) BLACK "random" o = .error .nameErr :=
  ⟨rfl, fun _ _ => rfl⟩

/-- C9: evaluation at the failing input.  The empty 5×5 board has no
five-in-a-row and has legal moves left, so by the claim a random-policy
trial must play on and terminate with 1, -1 or 0; instead `sim_for_one`
raises `NameError` (the unbound `move` at the `play_move` call) for every
oracle and every fuel, before any recursion happens. -/
theorem C9_sim_for_one_name_error :
    (mkBoard 5).detect_five_in_a_row = .ok EMPTY ∧
    (mkBoard 5).get_empty_points ≠ [] ∧
    ∀ (o : Oracle) (f : Nat),
      sim_for_one (mkBoard 5) BLACK o (f + 1) = .error .nameErr :=
  ⟨rfl, by decide, fun _ _ => rfl⟩

/-- C10: for every size `s` with `2 ≤ s < 5` construction succeeds, but the
line lists are never assigned (`none` models the absent attributes), so
`detect_five_in_a_row()` raises `AttributeError` instead of returning a
color or EMPTY. -/
theorem C10_small_board_detect_fails (s : Nat) (h2 : 2 ≤ s) (h5 : s < 5) :
    (mkBoard s).size = s ∧
    (mkBoard s).rows = none ∧ (mkBoard s).cols = none ∧
    (mkBoard s).diags = none ∧
    (mkBoard s).detect_five_in_a_row = .error .attrErr := by
  interval_cases s <;> exact ⟨rfl, rfl, rfl, rfl, rfl⟩

/-- Witness for C10 at size 3. -/
theorem C10_small_board_detect_fails_witness :
    (mkBoard 3).size = 3 ∧
    (mkBoard 3).rows = none ∧ (mkBoard 3).cols = none ∧
    (mkBoard 3).diags = none ∧
    (mkBoard 3).detect_five_in_a_row = .error .attrErr :=
  C10_small_board_detect_fails 3 (by decide) (by decide)

theorem win5At_cons (b : GoBoard) (p : Int) (rest : List Int) (i : Nat) (c : Color) :
    win5At b rest i c ↔ win5At b (p :: rest) (i + 1) c := by
  unfold win5At
  constructor
  · rintro ⟨hlen, hcell⟩
    refine ⟨by simp only [List.length_cons]; omega, fun k hk => ?_⟩
    have heq : i + 1 + k = (i + k) + 1 := by omega
    rw [heq, List.getD_cons_succ]
    exact hcell k hk
  · rintro ⟨hlen, hcell⟩
    refine ⟨by simp only [List.length_cons] at hlen; omega, fun k hk => ?_⟩
    have h2 := hcell k hk
    have heq : i + 1 + k = (i + k) + 1 := by omega
    rwa [heq, List.getD_cons_succ] at h2

theorem scan5_never_errors (b : GoBoard) :
    ∀ (l : List Int), (∀ p ∈ l, ∃ v, b.get_color p = some v) →
    ∀ prev cnt, ∃ c, scan5 b prev cnt l = .ok c := by
  intro l
  induction l with
  | nil => intro _ prev cnt; exact ⟨EMPTY, rfl⟩
  | cons p rest ih =>
    intro hc prev cnt
    obtain ⟨v, hv⟩ := hc p (by simp)
    have hrest := ih (fun q hq => hc q (by simp [hq]))
    rw [scan5, hv]
    by_cases hvp : v = prev <;> simp only [hvp, if_pos, if_neg, ite_true, ite_false] <;>
      split <;> first | exact ⟨_, rfl⟩ | apply hrest

theorem scan5_sound (b : GoBoard) :
    ∀ (l : List Int) (prev : Color) (cnt : Nat) (c : Color),
    scan5 b prev cnt l = .ok c → c ≠ EMPTY →
    (∃ i, win5At b l i c) ∨
    (c = prev ∧ 5 ≤ cnt + l.length ∧
      ∀ j < 5 - cnt, b.get_color (l.getD j 0) = some prev) := by
  intro l
  induction l with
  | nil =>
    intro prev cnt c hscan hc
    rw [scan5] at hscan
    cases hscan
    exact absurd rfl hc
  | cons p rest ih =>
    intro prev cnt c hscan hc
    rw [scan5] at hscan
    cases hv : b.get_color p with
    | none => rw [hv] at hscan; cases hscan
    | some v =>
      rw [hv] at hscan
      by_cases hvp : v = prev
      · rw [hvp] at hv
        simp only [if_pos hvp] at hscan
        by_cases hret : cnt + 1 = 5 ∧ prev ≠ EMPTY
        · rw [if_pos hret] at hscan
          have hcp : prev = c := by injection hscan
          right
          refine ⟨hcp.symm, by simp only [List.length_cons]; omega, ?_⟩
          intro j hj
          have hj0 : j = 0 := by omega
          subst hj0
          simpa using hv
        · rw [if_neg hret] at hscan
          rcases ih prev (cnt + 1) c hscan hc with h1 | h2
          · left
            obtain ⟨i, hi⟩ := h1
            exact ⟨i + 1, (win5At_cons b p rest i c).mp hi⟩
          · right
            obtain ⟨hcv, hlen, hcells⟩ := h2
            refine ⟨hcv, by simp only [List.length_cons] at *; omega, ?_⟩
            intro j hj
            cases j with
            | zero => simpa using hv
            | succ j' =>
              rw [List.getD_cons_succ]
              exact hcells j' (by omega)
      · simp only [if_neg hvp] at hscan
        have hret : ¬ ((1 : Nat) = 5 ∧ v ≠ EMPTY) := by simp
        rw [if_neg hret] at hscan
        rcases ih v 1 c hscan hc with h1 | h2
        · left
          obtain ⟨i, hi⟩ := h1
          exact ⟨i + 1, (win5At_cons b p rest i c).mp hi⟩
        · left
          obtain ⟨hcv, hlen, hcells⟩ := h2
          subst hcv
          refine ⟨0, ⟨by simp only [List.length_cons]; omega, ?_⟩⟩
          intro k hk
          cases k with
          | zero => simpa using hv
          | succ k' =>
            have heq : (0 : Nat) + (k' + 1) = k' + 1 := by omega
            rw [heq, List.getD_cons_succ]
            exact hcells k' (by omega)

theorem scan5_complete (b : GoBoard) :
    ∀ (l : List Int) (prev : Color) (cnt : Nat),
    (prev ≠ EMPTY → cnt ≤ 4) →
    (∀ p ∈ l, ∃ v, b.get_color p = some v) →
    ((∃ i c, c ≠ EMPTY ∧ win5At b l i c) ∨
      (prev ≠ EMPTY ∧ 1 ≤ 5 - cnt ∧ 5 - cnt ≤ l.length ∧
        ∀ j < 5 - cnt, b.get_color (l.getD j 0) = some prev)) →
    ∃ c', c' ≠ EMPTY ∧ scan5 b prev cnt l = .ok c' := by
  intro l
  induction l with
  | nil =>
    intro prev cnt _ _ hyp
    rcases hyp with ⟨i, c, _, hlen, _⟩ | ⟨_, h1, h2, _⟩
    · simp only [List.length_nil] at hlen; omega
    · simp only [List.length_nil] at h2; omega
  | cons p rest ih =>
    intro prev cnt hinv hcells hyp
    obtain ⟨v, hv⟩ := hcells p (by simp)
    have hcrest : ∀ q ∈ rest, ∃ w, b.get_color q = some w :=
      fun q hq => hcells q (by simp [hq])
    rw [scan5, hv]
    by_cases hvp : v = prev
    · simp only [if_pos hvp]
      by_cases hret : cnt + 1 = 5 ∧ prev ≠ EMPTY
      · rw [if_pos hret]
        exact ⟨prev, hret.2, rfl⟩
      · rw [if_neg hret]
        have hinv' : prev ≠ EMPTY → cnt + 1 ≤ 4 := by
          intro hpe
          have := hinv hpe
          have : cnt + 1 ≠ 5 := fun h => hret ⟨h, hpe⟩
          omega
        apply ih prev (cnt + 1) hinv' hcrest
        rcases hyp with ⟨i, c, hce, hwin⟩ | ⟨hpe, hk1, hk2, hcell⟩
        · cases i with
          | succ i' =>
            exact Or.inl ⟨i', c, hce, (win5At_cons b p rest i' c).mpr hwin⟩
          | zero =>
            -- window starts at the head: its color is v = prev, continue as a run
            obtain ⟨hlen, hcell⟩ := hwin
            have hc0 : b.get_color p = some c := by simpa using hcell 0 (by omega)
            have hvc : v = c := by rw [hv] at hc0; injection hc0
            have hpe : prev ≠ EMPTY := by rw [← hvp, hvc]; exact hce
            right
            have hcnt4 : cnt ≤ 3 := by
              have := hinv hpe
              have : cnt + 1 ≠ 5 := fun h => hret ⟨h, hpe⟩
              omega
            refine ⟨hpe, by omega, ?_, ?_⟩
            · simp only [List.length_cons] at hlen; omega
            · intro j hj
              have hjc := hcell (j + 1) (by omega)
              simp only [Nat.zero_add, List.getD_cons_succ] at hjc
              rw [hjc]
              congr 1
              rw [← hvp, hvc]
        · -- already inside a run of prev: the head extends it
          right
          have hk5 : 2 ≤ 5 - cnt := by
            have : cnt + 1 ≠ 5 := fun h => hret ⟨h, hpe⟩
            omega
          refine ⟨hpe, by omega, ?_, ?_⟩
          · simp only [List.length_cons] at hk2; omega
          · intro j hj
            have hjc := hcell (j + 1) (by omega)
            rwa [List.getD_cons_succ] at hjc
    · simp only [if_neg hvp]
      have hret : ¬ ((1 : Nat) = 5 ∧ v ≠ EMPTY) := by simp
      rw [if_neg hret]
      apply ih v 1 (fun _ => by omega) hcrest
      rcases hyp with ⟨i, c, hce, hwin⟩ | ⟨hpe, hk1, hk2, hcell⟩
      · cases i with
        | succ i' =>
          exact Or.inl ⟨i', c, hce, (win5At_cons b p rest i' c).mpr hwin⟩
        | zero =>
          obtain ⟨hlen, hcell⟩ := hwin
          have hc0 : b.get_color p = some c := by simpa using hcell 0 (by omega)
          have hvc : v = c := by rw [hv] at hc0; injection hc0
          right
          refine ⟨by rw [hvc]; exact hce, by omega, ?_, ?_⟩
          · simp only [List.length_cons] at hlen; omega
          · intro j hj
            have hjc := hcell (j + 1) (by omega)
            simp only [Nat.zero_add, List.getD_cons_succ] at hjc
            rw [hjc, hvc]
      · -- head cell is prev (the run color) but v ≠ prev: impossible
        exfalso
        have hjc := hcell 0 (by omega)
        simp only [List.getD_cons_zero] at hjc
        rw [hv] at hjc
        exact hvp (by injection hjc)

theorem lineOK_cells (b : GoBoard) (l : List Int) (h : lineOK b l) :
    ∀ p ∈ l, ∃ v, b.get_color p = some v :=
  fun p hp => ⟨(h p hp).choose, (h p hp).choose_spec.1⟩

theorem has_five_sound (b : GoBoard) (l : List Int) (c : Color)
    (hok : lineOK b l) (hc : c ≠ EMPTY) (h : b.has_five_in_list l = .ok c) :
    ∃ i, win5At b l i c := by
  rcases scan5_sound b l BORDER 1 c h hc with h1 | ⟨_, hlen, hcells⟩
  · exact h1
  · exfalso
    have hlpos : 0 < l.length := by omega
    have hc0 := hcells 0 (by omega)
    have hmem : l.getD 0 0 ∈ l := by
      rw [List.getD_eq_get l 0 hlpos]
      exact List.get_mem l 0 hlpos
    obtain ⟨v, hv, hvb⟩ := hok _ hmem
    rw [hv] at hc0
    exact hvb (by injection hc0)

theorem has_five_complete (b : GoBoard) (l : List Int) (hok : lineOK b l)
    (hwin : ∃ i c, c ≠ EMPTY ∧ win5At b l i c) :
    ∃ c', c' ≠ EMPTY ∧ b.has_five_in_list l = .ok c' :=
  scan5_complete b l BORDER 1 (fun _ => by omega) (lineOK_cells b l hok)
    (Or.inl hwin)

theorem scanLines_sound (b : GoBoard) :
    ∀ (ls : List (List Int)) (c : Color), (∀ l ∈ ls, lineOK b l) → c ≠ EMPTY →
    scanLines b ls = .ok c → ∃ l ∈ ls, ∃ i, win5At b l i c := by
  intro ls
  induction ls with
  | nil =>
    intro c _ hc hscan
    rw [scanLines] at hscan
    cases hscan
    exact absurd rfl hc
  | cons l rest ih =>
    intro c hok hc hscan
    rw [scanLines] at hscan
    cases hfil : b.has_five_in_list l with
    | error e => simp only [hfil] at hscan; cases hscan
    | ok r =>
      simp only [hfil] at hscan
      by_cases hre : r ≠ EMPTY
      · rw [if_pos hre] at hscan
        have hrc : r = c := by injection hscan
        subst hrc
        obtain ⟨i, hi⟩ := has_five_sound b l r (hok l (by simp)) hre hfil
        exact ⟨l, by simp, i, hi⟩
      · rw [if_neg hre] at hscan
        obtain ⟨l', hl', hi⟩ := ih c (fun q hq => hok q (by simp [hq])) hc hscan
        exact ⟨l', by simp [hl'], hi⟩

theorem scanLines_empty_iff (b : GoBoard) :
    ∀ (ls : List (List Int)), (∀ l ∈ ls, lineOK b l) →
    (scanLines b ls = .ok EMPTY ↔
      ∀ l ∈ ls, ∀ i c, c ≠ EMPTY → ¬ win5At b l i c) := by
  intro ls
  induction ls with
  | nil =>
    intro _
    simp [scanLines]
  | cons l rest ih =>
    intro hok
    have hokl := hok l (by simp)
    have hokr : ∀ q ∈ rest, lineOK b q := fun q hq => hok q (by simp [hq])
    constructor
    · intro hscan l' hl' i c hc hwin
      rw [scanLines] at hscan
      cases hfil : b.has_five_in_list l with
      | error e => simp only [hfil] at hscan; cases hscan
      | ok r =>
        simp only [hfil] at hscan
        by_cases hre : r ≠ EMPTY
        · rw [if_pos hre] at hscan
          exact hre (by injection hscan)
        · rw [if_neg hre] at hscan
          push_neg at hre
          rcases List.mem_cons.mp hl' with rfl | hl'
          · obtain ⟨c', hc', hfil'⟩ :=
              has_five_complete b l' hokl ⟨i, c, hc, hwin⟩
            rw [hfil] at hfil'
            have hrc : r = c' := by injection hfil'
            rw [hre] at hrc
            exact hc' hrc.symm
          · exact ((ih hokr).mp hscan) l' hl' i c hc hwin
    · intro hnone
      rw [scanLines]
      cases hfil : b.has_five_in_list l with
      | error e =>
        exfalso
        obtain ⟨c, hcc⟩ :=
          scan5_never_errors b l (lineOK_cells b l hokl) BORDER 1
        rw [GoBoard.has_five_in_list, hcc] at hfil
        cases hfil
      | ok r =>
        simp only [hfil]
        by_cases hre : r ≠ EMPTY
        · exfalso
          obtain ⟨i, hi⟩ := has_five_sound b l r hokl hre hfil
          exact hnone l (by simp) i r hre hi
        · push_neg at hre
          rw [if_neg (by simp [hre])]
          exact (ih hokr).mpr (fun l' hl' => hnone l' (by simp [hl']))

theorem scanLines_append_error (b : GoBoard) (ys : List (List Int)) (e : RunErr) :
    ∀ xs : List (List Int), scanLines b xs = .error e →
      scanLines b (xs ++ ys) = .error e := by
  intro xs
  induction xs with
  | nil => intro h; cases h
  | cons x xs ih =>
    intro h
    rw [scanLines] at h
    rw [List.cons_append, scanLines]
    cases hfil : b.has_five_in_list x with
    | error e' =>
      simp only [hfil] at h ⊢
      exact h
    | ok r =>
      simp only [hfil] at h ⊢
      by_cases hre : r ≠ EMPTY
      · rw [if_pos hre] at h; cases h
      · rw [if_neg hre] at h ⊢
        exact ih h

theorem scanLines_append_okE (b : GoBoard) (ys : List (List Int)) :
    ∀ xs : List (List Int), scanLines b xs = .ok EMPTY →
      scanLines b (xs ++ ys) = scanLines b ys := by
  intro xs
  induction xs with
  | nil => intro _; rw [List.nil_append]
  | cons x xs ih =>
    intro h
    rw [scanLines] at h
    rw [List.cons_append, scanLines]
    cases hfil : b.has_five_in_list x with
    | error e' => simp only [hfil] at h; cases h
    | ok r =>
      simp only [hfil] at h ⊢
      by_cases hre : r ≠ EMPTY
      · rw [if_pos hre] at h
        have hrc : r = EMPTY := by injection h
        exact absurd hrc hre
      · rw [if_neg hre] at h ⊢
        exact ih h

theorem scanLines_append_okNE (b : GoBoard) (ys : List (List Int)) (r : Color)
    (hre : r ≠ EMPTY) :
    ∀ xs : List (List Int), scanLines b xs = .ok r →
      scanLines b (xs ++ ys) = .ok r := by
  intro xs
  induction xs with
  | nil =>
    intro h
    rw [scanLines] at h
    have : EMPTY = r := by injection h
    exact absurd this.symm hre
  | cons x xs ih =>
    intro h
    rw [scanLines] at h
    rw [List.cons_append, scanLines]
    cases hfil : b.has_five_in_list x with
    | error e' => simp only [hfil] at h; cases h
    | ok r' =>
      simp only [hfil] at h ⊢
      by_cases hre' : r' ≠ EMPTY
      · rw [if_pos hre'] at h ⊢
        exact h
      · rw [if_neg hre'] at h ⊢
        exact ih h

theorem detect_eq_scanLines (b : GoBoard) (rs cs ds : List (List Int))
    (hr : b.rows = some rs) (hc : b.cols = some cs) (hd : b.diags = some ds) :
    b.detect_five_in_a_row = scanLines b (rs ++ (cs ++ ds)) := by
  simp only [GoBoard.detect_five_in_a_row, hr, hc, hd]
  cases h1 : scanLines b rs with
  | error e => simp only [h1]; rw [scanLines_append_error b (cs ++ ds) e rs h1]
  | ok r =>
    simp only [h1]
    by_cases hre : r ≠ EMPTY
    · rw [if_pos hre, scanLines_append_okNE b (cs ++ ds) r hre rs h1]
    · push_neg at hre
      subst hre
      rw [if_neg (by simp), scanLines_append_okE b (cs ++ ds) rs h1]
      cases h2 : scanLines b cs with
      | error e => simp only [h2]; rw [scanLines_append_error b ds e cs h2]
      | ok c =>
        simp only [h2]
        by_cases hce : c ≠ EMPTY
        · rw [if_pos hce, scanLines_append_okNE b ds c hce cs h2]
        · push_neg at hce
          subst hce
          rw [if_neg (by simp), scanLines_append_okE b ds cs h2]

/-- C6: `detect_five_in_a_row` (a) scans the precomputed rows, then columns,
then diagonals in that order — it equals the single left-to-right scan of
`rows ++ cols ++ diags` returning the first non-EMPTY line verdict; (b) a
non-EMPTY verdict `c` on a line of non-BORDER cells comes from a running
same-color streak of length 5 of color `c` in that line; (c) the scan
returns EMPTY exactly when no line contains such a streak; and (d) on the
board whose only stones are five consecutive BLACK stones in one line it
returns BLACK. -/
theorem C6_detect_five :
    (∀ (b : GoBoard) (rs cs ds : List (List Int)),
      b.rows = some rs → b.cols = some cs → b.diags = some ds →
      b.detect_five_in_a_row = scanLines b (rs ++ (cs ++ ds))) ∧
    (∀ (b : GoBoard) (ls : List (List Int)) (c : Color),
      (∀ l ∈ ls, lineOK b l) → c ≠ EMPTY → scanLines b ls = .ok c →
      ∃ l ∈ ls, ∃ i, win5At b l i c) ∧
    (∀ (b : GoBoard) (ls : List (List Int)),
      (∀ l ∈ ls, lineOK b l) →
      (scanLines b ls = .ok EMPTY ↔
        ∀ l ∈ ls, ∀ i c, c ≠ EMPTY → ¬ win5At b l i c)) ∧
    boardFive.detect_five_in_a_row = .ok BLACK :=
  ⟨detect_eq_scanLines, scanLines_sound, scanLines_empty_iff, rfl⟩

/-- Witness for C6: its quantified parts instantiated on concrete size-5
boards, all hypotheses discharged by computation. -/
theorem C6_detect_five_witness :
    (boardFive.detect_five_in_a_row =
      scanLines boardFive
        ([[7, 8, 9, 10, 11], [13, 14, 15, 16, 17], [19, 20, 21, 22, 23],
          [25, 26, 27, 28, 29], [31, 32, 33, 34, 35]] ++
         ([[7, 13, 19, 25, 31], [8, 14, 20, 26, 32], [9, 15, 21, 27, 33],
           [10, 16, 22, 28, 34], [11, 17, 23, 29, 35]] ++
          [[7, 14, 21, 28, 35], [31, 26, 21, 16, 11]]))) ∧
    (∃ l ∈ ([[(13 : Int), 14, 15, 16, 17]] : List (List Int)),
      ∃ i, win5At boardFive l i BLACK) ∧
    (scanLines (mkBoard 5) [[7, 8, 9, 10, 11]] = .ok EMPTY ↔
      ∀ l ∈ ([[(7 : Int), 8, 9, 10, 11]] : List (List Int)),
        ∀ i c, c ≠ EMPTY → ¬ win5At (mkBoard 5) l i c) :=
  ⟨C6_detect_five.1 boardFive _ _ _ rfl rfl rfl,
   C6_detect_five.2.1 boardFive [[13, 14, 15, 16, 17]] BLACK
     (by
       intro l hl
       simp only [List.mem_singleton] at hl
       subst hl
       intro p hp
       fin_cases hp <;> exact ⟨BLACK, rfl, by decide⟩)
     (by decide) rfl,
   C6_detect_five.2.2.1 (mkBoard 5) [[7, 8, 9, 10, 11]]
     (by
       intro l hl
       simp only [List.mem_singleton] at hl
       subst hl
       intro p hp
       fin_cases hp <;> exact ⟨EMPTY, rfl, by decide⟩)⟩

theorem pyRange_one (a b : Nat) : pyRange a b 1 = (List.range (b - a)).map (fun k => a + k) := by
  simp [pyRange]

theorem mem_pyRange_one (a b x : Nat) : x ∈ pyRange a b 1 ↔ a ≤ x ∧ x < b := by
  simp only [pyRange_one, List.mem_map, List.mem_range]
  constructor
  · rintro ⟨k, hk, rfl⟩; omega
  · rintro ⟨h1, h2⟩; exact ⟨x - a, by omega, by omega⟩

theorem countP_range_lt (n t : Nat) :
    (List.range n).countP (fun k => decide (k < t)) = min t n := by
  induction n with
  | zero => simp
  | succ n ih =>
    rw [List.range_succ, List.countP_append, ih]
    by_cases h : n < t <;> simp [List.countP_cons, h] <;> omega

theorem countP_range_ge (n t : Nat) :
    (List.range n).countP (fun k => decide (t ≤ k)) = n - t := by
  induction n with
  | zero => simp
  | succ n ih =>
    rw [List.range_succ, List.countP_append, ih]
    by_cases h : t ≤ n <;> simp [List.countP_cons, h] <;> omega

theorem length_foldl_keep (f : Nat → List Int) :
    ∀ (L : List Nat) (acc : List (List Int)),
    (L.foldl (fun acc i => keepIfLong acc (f i)) acc).length =
      acc.length + L.countP (fun i => decide (5 ≤ (f i).length)) := by
  intro L
  induction L with
  | nil => intro acc; simp
  | cons i L ih =>
    intro acc
    rw [List.foldl_cons, ih, List.countP_cons]
    unfold keepIfLong
    by_cases h : 5 ≤ (f i).length <;> simp [h] <;> omega

theorem length_foldl_keep2 (f g : Nat → List Int) :
    ∀ (L : List Nat) (acc : List (List Int)),
    (L.foldl (fun acc i => keepIfLong (keepIfLong acc (f i)) (g i)) acc).length =
      acc.length + L.countP (fun i => decide (5 ≤ (f i).length)) +
        L.countP (fun i => decide (5 ≤ (g i).length)) := by
  intro L
  induction L with
  | nil => intro acc; simp
  | cons i L ih =>
    intro acc
    rw [List.foldl_cons, ih, List.countP_cons, List.countP_cons]
    unfold keepIfLong
    by_cases h1 : 5 ≤ (f i).length <;> by_cases h2 : 5 ≤ (g i).length <;>
      simp [h1, h2] <;> omega

theorem setRange_length : ∀ (k : Nat) (l : List Color) (a : Nat),
    (setRange l a k).length = l.length := by
  intro k
  induction k with
  | zero => intro l a; rfl
  | succ k ih => intro l a; rw [setRange, ih, List.length_set]

theorem getD_set_self (l : List Color) (a : Nat) (v : Color) (h : a < l.length) :
    (l.set a v).getD a BORDER = v := by
  rw [List.getD_eq_getElem _ _ (by rwa [List.length_set])]
  simp [List.getElem_set_self]

theorem getD_set_ne (l : List Color) (a i : Nat) (v : Color) (h : i ≠ a) :
    (l.set a v).getD i BORDER = l.getD i BORDER := by
  rw [List.getD_eq_getElem?_getD, List.getD_eq_getElem?_getD,
    List.getElem?_set_ne (fun hh => h hh.symm)]

theorem getD_setRange : ∀ (k : Nat) (l : List Color) (a : Nat),
    a + k ≤ l.length → ∀ i,
    (setRange l a k).getD i BORDER =
      if a ≤ i ∧ i < a + k then EMPTY else l.getD i BORDER := by
  intro k
  induction k with
  | zero =>
    intro l a _ i
    rw [setRange, if_neg (by omega)]
  | succ k ih =>
    intro l a hlen i
    rw [setRange, ih (l.set a EMPTY) (a + 1) (by rw [List.length_set]; omega) i]
    by_cases hi : a + 1 ≤ i ∧ i < a + 1 + k
    · rw [if_pos hi, if_pos (by omega)]
    · rw [if_neg hi]
      by_cases hia : i = a
      · rw [if_pos (by omega), hia, getD_set_self l a EMPTY (by omega)]
      · rw [if_neg (by omega), getD_set_ne l a i EMPTY hia]

theorem fold_rows_length (s NS : Nat) : ∀ (R : List Nat) (l : List Color),
    (R.foldl (fun acc row => setRange acc (row * NS + 1) s) l).length = l.length := by
  intro R
  induction R with
  | nil => intro l; rfl
  | cons r R ih => intro l; rw [List.foldl_cons, ih, setRange_length]

theorem fold_rows_getD (s NS : Nat) : ∀ (R : List Nat) (l : List Color),
    (∀ r ∈ R, r * NS + 1 + s ≤ l.length) → ∀ i,
    (R.foldl (fun acc row => setRange acc (row * NS + 1) s) l).getD i BORDER =
      if ∃ r ∈ R, r * NS + 1 ≤ i ∧ i < r * NS + 1 + s then EMPTY
      else l.getD i BORDER := by
  intro R
  induction R with
  | nil =>
    intro l _ i
    rw [List.foldl_nil, if_neg (by simp)]
  | cons r R ih =>
    intro l hlen i
    rw [List.foldl_cons,
      ih (setRange l (r * NS + 1) s)
        (fun r' hr' => by rw [setRange_length]; exact hlen r' (by simp [hr'])) i,
      getD_setRange s l (r * NS + 1) (hlen r (by simp)) i]
    by_cases h1 : ∃ r' ∈ R, r' * NS + 1 ≤ i ∧ i < r' * NS + 1 + s
    · rw [if_pos h1, if_pos (by obtain ⟨r', hr', hb⟩ := h1; exact ⟨r', by simp [hr'], hb⟩)]
    · rw [if_neg h1]
      by_cases h2 : r * NS + 1 ≤ i ∧ i < r * NS + 1 + s
      · rw [if_pos h2, if_pos ⟨r, by simp, h2⟩]
      · rw [if_neg h2, if_neg (by
          rintro ⟨r', hr', hb⟩
          rcases List.mem_cons.mp hr' with rfl | hr'
          · exact h2 hb
          · exact h1 ⟨r', hr', hb⟩)]

theorem getD_replicate_border (n i : Nat) :
    (List.replicate n BORDER).getD i BORDER = BORDER := by
  by_cases h : i < n
  · rw [List.getD_eq_getElem _ _ (by simpa using h)]
    exact List.getElem_replicate _ _
  · rw [List.getD_eq_getElem?_getD, List.getElem?_eq_none (by simpa using h)]
    rfl

theorem playableN_lt_maxpoint (s i : Nat) (h : playableN s i) :
    i < s * s + 3 * (s + 1) := by
  obtain ⟨r, c, h1, h2, h3, h4, rfl⟩ := h
  have : r * (s + 1) ≤ s * (s + 1) := Nat.mul_le_mul_right _ h2
  nlinarith

theorem rawBoard_board_length (s : Nat) :
    (rawBoard s).board.length = s * s + 3 * (s + 1) := by
  rw [rawBoard]
  simp only [init_empty_points]
  rw [fold_rows_length, List.length_replicate]

theorem exists_row_iff_playableN (s i : Nat) :
    (∃ r ∈ pyRange 1 (s + 1) 1, r * (s + 1) + 1 ≤ i ∧ i < r * (s + 1) + 1 + s) ↔
      playableN s i := by
  constructor
  · rintro ⟨r, hr, hb1, hb2⟩
    have hr' := (mem_pyRange_one 1 (s + 1) r).mp hr
    exact ⟨r, i - r * (s + 1), by omega, by omega, by omega, by omega, by omega⟩
  · rintro ⟨r, c, h1, h2, h3, h4, rfl⟩
    exact ⟨r, (mem_pyRange_one 1 (s + 1) r).mpr (by omega), by omega, by omega⟩

theorem rawBoard_fold_rows_getD (s i : Nat) :
    (rawBoard s).board.getD i BORDER =
      if ∃ r ∈ pyRange 1 (s + 1) 1, r * (s + 1) + 1 ≤ i ∧ i < r * (s + 1) + 1 + s
      then EMPTY
      else (List.replicate (s * s + 3 * (s + 1)) BORDER).getD i BORDER := by
  rw [rawBoard]
  simp only [init_empty_points]
  exact fold_rows_getD s (s + 1) (pyRange 1 (s + 1) 1)
    (List.replicate (s * s + 3 * (s + 1)) BORDER)
    (fun r hr => by
      rw [List.length_replicate]
      have hr' := (mem_pyRange_one 1 (s + 1) r).mp hr
      have : r * (s + 1) ≤ s * (s + 1) := Nat.mul_le_mul_right _ (by omega)
      nlinarith) i

theorem rawBoard_getD_playable (s i : Nat) (h : playableN s i) :
    (rawBoard s).board.getD i BORDER = EMPTY := by
  rw [rawBoard_fold_rows_getD, if_pos ((exists_row_iff_playableN s i).mpr h)]

theorem rawBoard_getD_border (s i : Nat) (h : ¬ playableN s i) :
    (rawBoard s).board.getD i BORDER = BORDER := by
  rw [rawBoard_fold_rows_getD,
    if_neg (fun hh => h ((exists_row_iff_playableN s i).mp hh)),
    getD_replicate_border]

theorem decomp_unique (NS r c r' c' : Nat) (hNS : 0 < NS) (hc : c < NS)
    (hc' : c' < NS) (h : r * NS + c = r' * NS + c') : r = r' ∧ c = c' := by
  have h1 : (r * NS + c) % NS = c := by
    rw [Nat.mul_comm r NS, Nat.mul_add_mod, Nat.mod_eq_of_lt hc]
  have h2 : (r' * NS + c') % NS = c' := by
    rw [Nat.mul_comm r' NS, Nat.mul_add_mod, Nat.mod_eq_of_lt hc']
  have hcc : c = c' := by rw [← h1, ← h2, h]
  subst hcc
  have : r * NS = r' * NS := by omega
  exact ⟨Nat.eq_of_mul_eq_mul_right hNS this, rfl⟩

theorem not_playable_edge (s r c : Nat) (hc1 : 1 ≤ c) (hc2 : c ≤ s + 1)
    (hr2 : r ≤ s + 1) (h : r = 0 ∨ r = s + 1 ∨ c = s + 1) :
    ¬ playableN s (r * (s + 1) + c) := by
  rintro ⟨r', c', b1, b2, b3, b4, heq⟩
  rcases h with rfl | rfl | rfl
  · have hge : s + 1 ≤ r' * (s + 1) := Nat.le_mul_of_pos_left _ (by omega)
    omega
  · by_cases hcs : c = s + 1
    · subst hcs
      have heq' : (s + 2) * (s + 1) + 0 = r' * (s + 1) + c' := by ring_nf; ring_nf at heq; omega
      obtain ⟨_, hc0⟩ := decomp_unique (s + 1) (s + 2) 0 r' c' (by omega) (by omega) (by omega) heq'
      omega
    · obtain ⟨hr', _⟩ := decomp_unique (s + 1) (s + 1) c r' c' (by omega) (by omega) (by omega) heq
      omega
  · have heq' : (r + 1) * (s + 1) + 0 = r' * (s + 1) + c' := by ring_nf; ring_nf at heq; omega
    obtain ⟨_, hc0⟩ := decomp_unique (s + 1) (r + 1) 0 r' c' (by omega) (by omega) (by omega) heq'
    omega

theorem npGet_nat (l : List Color) (n : Nat) (h : n < l.length) :
    npGet l (n : Int) = some (l.getD n BORDER) := by
  unfold npGet
  rw [if_pos (Int.ofNat_nonneg n)]
  rw [Int.toNat_natCast]
  rw [List.get?_eq_getElem?, List.getElem?_eq_getElem h, List.getD_eq_getElem _ _ h]

theorem rawBoard_npGet_playable (s : Nat) (r c : Nat)
    (h1 : 1 ≤ r) (h2 : r ≤ s) (h3 : 1 ≤ c) (h4 : c ≤ s) :
    npGet (rawBoard s).board ((r * (s + 1) + c : Nat) : Int) = some EMPTY := by
  have hp : playableN s (r * (s + 1) + c) := ⟨r, c, h1, h2, h3, h4, rfl⟩
  rw [npGet_nat _ _ (by rw [rawBoard_board_length]; exact playableN_lt_maxpoint s _ hp),
    rawBoard_getD_playable s _ hp]

theorem rawBoard_npGet_edge (s : Nat) (r c : Nat) (hc1 : 1 ≤ c) (hc2 : c ≤ s + 1)
    (hr2 : r ≤ s + 1) (h : r = 0 ∨ r = s + 1 ∨ c = s + 1) :
    npGet (rawBoard s).board ((r * (s + 1) + c : Nat) : Int) = some BORDER := by
  have hlt : r * (s + 1) + c < s * s + 3 * (s + 1) := by
    have : r * (s + 1) ≤ (s + 1) * (s + 1) := Nat.mul_le_mul_right _ hr2
    nlinarith
  rw [npGet_nat _ _ (by rw [rawBoard_board_length]; exact hlt),
    rawBoard_getD_border s _ (not_playable_edge s r c hc1 hc2 hr2 h)]

theorem diagWalk_SE_len (s : Nat) : ∀ (fuel r c : Nat),
    1 ≤ r → 1 ≤ c → r ≤ s + 1 → c ≤ s + 1 →
    min (s + 1 - r) (s + 1 - c) + 1 ≤ fuel →
    (diagWalk (rawBoard s).board (((s + 1 : Nat) : Int) + 1) fuel
      ((r * (s + 1) + c : Nat) : Int)).length = min (s + 1 - r) (s + 1 - c) := by
  intro fuel
  induction fuel with
  | zero => intro r c _ _ _ _ hfuel; omega
  | succ fuel ih =>
    intro r c h1 h3 h2 h4 hfuel
    by_cases hedge : r = s + 1 ∨ c = s + 1
    · rw [diagWalk, rawBoard_npGet_edge s r c h3 h4 h2 (Or.inr hedge)]
      have hBE : ¬ (BORDER = EMPTY) := by decide
      simp only [hBE, if_false, List.length_nil]
      rcases hedge with h | h <;> omega
    · push_neg at hedge
      rw [diagWalk, rawBoard_npGet_playable s r c h1 (by omega) h3 (by omega)]
      have hEE : (EMPTY = EMPTY) := rfl
      simp only [hEE, if_true]
      have hstep : ((r * (s + 1) + c : Nat) : Int) + (((s + 1 : Nat) : Int) + 1) =
          (((r + 1) * (s + 1) + (c + 1) : Nat) : Int) := by push_cast; ring
      rw [List.length_cons, hstep,
        ih (r + 1) (c + 1) (by omega) (by omega) (by omega) (by omega) (by omega)]
      omega

theorem diagWalk_NE_len (s : Nat) : ∀ (fuel r c : Nat),
    r ≤ s → 1 ≤ c → c ≤ s + 1 →
    min r (s + 1 - c) + 1 ≤ fuel →
    (diagWalk (rawBoard s).board (-1 * ((s + 1 : Nat) : Int) + 1) fuel
      ((r * (s + 1) + c : Nat) : Int)).length = min r (s + 1 - c) := by
  intro fuel
  induction fuel with
  | zero => intro r c _ _ _ hfuel; omega
  | succ fuel ih =>
    intro r c h2 h3 h4 hfuel
    by_cases hedge : r = 0 ∨ c = s + 1
    · rw [diagWalk, rawBoard_npGet_edge s r c h3 h4 (by omega)
        (by rcases hedge with h | h; exacts [Or.inl h, Or.inr (Or.inr h)])]
      have hBE : ¬ (BORDER = EMPTY) := by decide
      simp only [hBE, if_false, List.length_nil]
      rcases hedge with h | h <;> omega
    · push_neg at hedge
      obtain ⟨hr0, hcs⟩ := hedge
      obtain ⟨r'', rfl⟩ : ∃ r'', r = r'' + 1 := ⟨r - 1, by omega⟩
      rw [diagWalk, rawBoard_npGet_playable s (r'' + 1) c (by omega) h2 h3 (by omega)]
      have hEE : (EMPTY = EMPTY) := rfl
      simp only [hEE, if_true]
      have hstep : (((r'' + 1) * (s + 1) + c : Nat) : Int) +
          (-1 * ((s + 1 : Nat) : Int) + 1) =
          ((r'' * (s + 1) + (c + 1) : Nat) : Int) := by push_cast; ring
      rw [List.length_cons, hstep,
        ih r'' (c + 1) (by omega) (by omega) (by omega) (by omega)]
      omega

theorem rawBoard_NS (s : Nat) : (rawBoard s).NS = s + 1 := rfl

theorem rawBoard_size (s : Nat) : (rawBoard s).size = s := rfl

theorem rawBoard_maxpoint (s : Nat) : (rawBoard s).maxpoint = s * s + 3 * (s + 1) := rfl

theorem pyRange_eq_map (a b st n : Nat) (h : (b - a + st - 1) / st = n) :
    pyRange a b st = (List.range n).map (fun k => a + st * k) := by
  rw [pyRange, h]

theorem s_le_fuel (s : Nat) : s + 1 ≤ s * s + 3 * (s + 1) + 1 := by nlinarith

theorem diag_len2 (s : Nat) (h5 : 5 ≤ s) :
    (s * (s + 1) + 1 + 1 - (1 * (s + 1) + 1 + (s + 1)) + (s + 1) - 1) / (s + 1)
      = s - 1 := by
  have e1 : s * (s + 1) = s * s + s := by ring
  have e2 : 2 * s ≤ s * s := Nat.mul_le_mul_right s (by omega)
  have e3 : s * (s + 1) + 1 + 1 - (1 * (s + 1) + 1 + (s + 1)) + (s + 1) - 1
      = (s - 1) * (s + 1) := by
    have e4 : (s - 1) * (s + 1) = s * s + s - (s + 1) := by
      obtain ⟨t, rfl⟩ : ∃ t, s = t + 1 := ⟨s - 1, by omega⟩
      have a1 : t * (t + 1 + 1) = t * t + 2 * t := by ring
      have a2 : (t + 1) * (t + 1) = t * t + 2 * t + 1 := by ring
      simp only [Nat.add_sub_cancel]
      omega
    omega
  rw [e3, Nat.mul_div_cancel _ (by omega : 0 < s + 1)]

theorem diagsOf_rawBoard_length (s : Nat) (h5 : 5 ≤ s) :
    (diagsOf (rawBoard s)).length = (2 * (s - 5) + 1) * 2 := by
  have hfuel := s_le_fuel s
  rw [diagsOf]
  simp only [rawBoard_NS, rawBoard_size, rawBoard_maxpoint, GoBoard.row_start]
  rw [length_foldl_keep, length_foldl_keep2, length_foldl_keep]
  rw [pyRange_eq_map (1 * (s + 1) + 1) (1 * (s + 1) + 1 + s) 1 s (by omega)]
  rw [pyRange_eq_map (1 * (s + 1) + 1 + (s + 1)) (s * (s + 1) + 1 + 1) (s + 1)
    (s - 1) (diag_len2 s h5)]
  rw [pyRange_eq_map (s * (s + 1) + 1 + 1) (s * (s + 1) + 1 + 1 + s) 1 s (by omega)]
  simp only [List.countP_map, Function.comp_def]
  have h1 : (List.range s).countP
      (fun k => decide (5 ≤ (diagWalk (rawBoard s).board (((s + 1 : Nat) : Int) + 1)
        (s * s + 3 * (s + 1) + 1)
        ((1 * (s + 1) + 1 + 1 * k : Nat) : Int)).length)) = s - 4 := by
    have hpt : ∀ k ∈ List.range s,
        (decide (5 ≤ (diagWalk (rawBoard s).board (((s + 1 : Nat) : Int) + 1)
          (s * s + 3 * (s + 1) + 1)
          ((1 * (s + 1) + 1 + 1 * k : Nat) : Int)).length) = true) ↔
        (decide (k < s - 4) = true) := by
      intro k hk
      have hks : k < s := List.mem_range.mp hk
      have e : 1 * (s + 1) + 1 + 1 * k = 1 * (s + 1) + (1 + k) := by ring
      rw [e, diagWalk_SE_len s _ 1 (1 + k) (by omega) (by omega) (by omega)
        (by omega) (by omega)]
      simp only [decide_eq_true_eq]
      omega
    rw [List.countP_congr hpt, countP_range_lt]
    omega
  have h2 : (List.range (s - 1)).countP
      (fun k => decide (5 ≤ (diagWalk (rawBoard s).board (((s + 1 : Nat) : Int) + 1)
        (s * s + 3 * (s + 1) + 1)
        ((1 * (s + 1) + 1 + (s + 1) + (s + 1) * k : Nat) : Int)).length)) = s - 5 := by
    have hpt : ∀ k ∈ List.range (s - 1),
        (decide (5 ≤ (diagWalk (rawBoard s).board (((s + 1 : Nat) : Int) + 1)
          (s * s + 3 * (s + 1) + 1)
          ((1 * (s + 1) + 1 + (s + 1) + (s + 1) * k : Nat) : Int)).length) = true) ↔
        (decide (k < s - 5) = true) := by
      intro k hk
      have hks : k < s - 1 := List.mem_range.mp hk
      have e : 1 * (s + 1) + 1 + (s + 1) + (s + 1) * k = (2 + k) * (s + 1) + 1 := by
        ring
      rw [e, diagWalk_SE_len s _ (2 + k) 1 (by omega) (by omega) (by omega)
        (by omega) (by omega)]
      simp only [decide_eq_true_eq]
      omega
    rw [List.countP_congr hpt, countP_range_lt]
    omega
  have h3 : (List.range (s - 1)).countP
      (fun k => decide (5 ≤ (diagWalk (rawBoard s).board
        (-1 * ((s + 1 : Nat) : Int) + 1) (s * s + 3 * (s + 1) + 1)
        ((1 * (s + 1) + 1 + (s + 1) + (s + 1) * k : Nat) : Int)).length)) = s - 4 := by
    have hpt : ∀ k ∈ List.range (s - 1),
        (decide (5 ≤ (diagWalk (rawBoard s).board
          (-1 * ((s + 1 : Nat) : Int) + 1) (s * s + 3 * (s + 1) + 1)
          ((1 * (s + 1) + 1 + (s + 1) + (s + 1) * k : Nat) : Int)).length) = true) ↔
        (decide (3 ≤ k) = true) := by
      intro k hk
      have hks : k < s - 1 := List.mem_range.mp hk
      have e : 1 * (s + 1) + 1 + (s + 1) + (s + 1) * k = (2 + k) * (s + 1) + 1 := by
        ring
      rw [e, diagWalk_NE_len s _ (2 + k) 1 (by omega) (by omega) (by omega)
        (by omega)]
      simp only [decide_eq_true_eq]
      omega
    rw [List.countP_congr hpt, countP_range_ge]
    omega
  have h4 : (List.range s).countP
      (fun k => decide (5 ≤ (diagWalk (rawBoard s).board
        (-1 * ((s + 1 : Nat) : Int) + 1) (s * s + 3 * (s + 1) + 1)
        ((s * (s + 1) + 1 + 1 + 1 * k : Nat) : Int)).length)) = s - 5 := by
    have hpt : ∀ k ∈ List.range s,
        (decide (5 ≤ (diagWalk (rawBoard s).board
          (-1 * ((s + 1 : Nat) : Int) + 1) (s * s + 3 * (s + 1) + 1)
          ((s * (s + 1) + 1 + 1 + 1 * k : Nat) : Int)).length) = true) ↔
        (decide (k < s - 5) = true) := by
      intro k hk
      have hks : k < s := List.mem_range.mp hk
      have e : s * (s + 1) + 1 + 1 + 1 * k = s * (s + 1) + (2 + k) := by ring
      rw [e, diagWalk_NE_len s _ s (2 + k) (by omega) (by omega) (by omega)
        (by omega)]
      simp only [decide_eq_true_eq]
      omega
    rw [List.countP_congr hpt, countP_range_lt]
    omega
  simp only [List.length_nil, h1, h2, h3, h4]
  omega

theorem rowsOf_length (b : GoBoard) : (rowsOf b).length = b.size := by
  simp only [rowsOf, List.length_map, pyRange, List.length_range]
  omega

theorem colsOf_length (b : GoBoard) : (colsOf b).length = b.size := by
  simp only [colsOf, List.length_map, pyRange, List.length_range]
  omega

theorem calculate_board (b : GoBoard) :
    b.calculate_rows_cols_diags.board = b.board := by
  rw [GoBoard.calculate_rows_cols_diags]
  split <;> rfl

theorem calculate_size (b : GoBoard) :
    b.calculate_rows_cols_diags.size = b.size := by
  rw [GoBoard.calculate_rows_cols_diags]
  split <;> rfl

theorem calculate_NS (b : GoBoard) :
    b.calculate_rows_cols_diags.NS = b.NS := by
  rw [GoBoard.calculate_rows_cols_diags]
  split <;> rfl

theorem calculate_maxpoint (b : GoBoard) :
    b.calculate_rows_cols_diags.maxpoint = b.maxpoint := by
  rw [GoBoard.calculate_rows_cols_diags]
  split <;> rfl

theorem calculate_rows_eq (b : GoBoard) (h : ¬ b.size < 5) :
    b.calculate_rows_cols_diags.rows = some (rowsOf b) := by
  rw [GoBoard.calculate_rows_cols_diags, if_neg h]

theorem calculate_cols_eq (b : GoBoard) (h : ¬ b.size < 5) :
    b.calculate_rows_cols_diags.cols = some (colsOf b) := by
  rw [GoBoard.calculate_rows_cols_diags, if_neg h]

theorem calculate_diags_eq (b : GoBoard) (h : ¬ b.size < 5) :
    b.calculate_rows_cols_diags.diags = some (diagsOf b) := by
  rw [GoBoard.calculate_rows_cols_diags, if_neg h]

theorem rowsOf_congr (b b' : GoBoard) (hs : b'.size = b.size) (hn : b'.NS = b.NS) :
    rowsOf b' = rowsOf b := by
  simp only [rowsOf, GoBoard.row_start, hs, hn]

theorem colsOf_congr (b b' : GoBoard) (hs : b'.size = b.size) (hn : b'.NS = b.NS) :
    colsOf b' = colsOf b := by
  simp only [colsOf, GoBoard.row_start, hs, hn]

theorem diagsOf_congr (b b' : GoBoard) (hs : b'.size = b.size) (hn : b'.NS = b.NS)
    (hb : b'.board = b.board) (hm : b'.maxpoint = b.maxpoint) :
    diagsOf b' = diagsOf b := by
  simp only [diagsOf, GoBoard.row_start, hs, hn, hb, hm]

theorem mkBoard_rows (s : Nat) (h : 5 ≤ s) :
    (mkBoard s).rows = some (rowsOf (rawBoard s)) := by
  rw [mkBoard, GoBoard.reset,
    calculate_rows_eq _ (by rw [calculate_size, rawBoard_size]; omega),
    rowsOf_congr (rawBoard s) _ (calculate_size _) (calculate_NS _)]

theorem mkBoard_cols (s : Nat) (h : 5 ≤ s) :
    (mkBoard s).cols = some (colsOf (rawBoard s)) := by
  rw [mkBoard, GoBoard.reset,
    calculate_cols_eq _ (by rw [calculate_size, rawBoard_size]; omega),
    colsOf_congr (rawBoard s) _ (calculate_size _) (calculate_NS _)]

theorem mkBoard_diags (s : Nat) (h : 5 ≤ s) :
    (mkBoard s).diags = some (diagsOf (rawBoard s)) := by
  rw [mkBoard, GoBoard.reset,
    calculate_diags_eq _ (by rw [calculate_size, rawBoard_size]; omega),
    diagsOf_congr (rawBoard s) _ (calculate_size _) (calculate_NS _)
      (calculate_board _) (calculate_maxpoint _)]

theorem mkBoard_lines_none (s : Nat) (h : s < 5) :
    (mkBoard s).rows = none ∧ (mkBoard s).cols = none ∧ (mkBoard s).diags = none := by
  have hr : (rawBoard s).size < 5 := by rw [rawBoard_size]; omega
  have hinner : (rawBoard s).calculate_rows_cols_diags = rawBoard s := by
    rw [GoBoard.calculate_rows_cols_diags, if_pos hr]
  rw [mkBoard, GoBoard.reset, hinner, hinner]
  exact ⟨rfl, rfl, rfl⟩

theorem play_move_preserves_lines (b : GoBoard) (p : Option Int) (c : Color)
    (r : Bool) (b' : GoBoard) (h : b.play_move p c = .ok (r, b')) :
    b'.rows = b.rows ∧ b'.cols = b.cols ∧ b'.diags = b.diags := by
  rw [GoBoard.play_move.eq_def] at h
  split at h
  · cases h
  · split at h
    · injection h with h2
      injection h2 with hr hb
      rw [← hb]
      exact ⟨rfl, rfl, rfl⟩
    · split at h
      · cases h
      · split at h
        · injection h with h2
          injection h2 with hr hb
          rw [← hb]
          exact ⟨rfl, rfl, rfl⟩
        · injection h with h2
          injection h2 with hr hb
          rw [← hb]
          exact ⟨rfl, rfl, rfl⟩

/-- C5: for every size `s ≥ 5`, the freshly constructed (or reset) board has
exactly `s` rows, `s` columns and `(2·(s−5)+1)·2` diagonals; for `2 ≤ s < 5`
none of the three line lists is derived; and `play_move` (the only mutator
of an existing board) never changes the line lists. -/
theorem C5_line_precomputation :
    (∀ s, 5 ≤ s →
      ∃ rs cs ds,
        (mkBoard s).rows = some rs ∧ rs.length = s ∧
        (mkBoard s).cols = some cs ∧ cs.length = s ∧
        (mkBoard s).diags = some ds ∧ ds.length = (2 * (s - 5) + 1) * 2) ∧
    (∀ s, 2 ≤ s → s < 5 →
      (mkBoard s).rows = none ∧ (mkBoard s).cols = none ∧
        (mkBoard s).diags = none) ∧
    (∀ (b : GoBoard) (p : Option Int) (c : Color) (r : Bool) (b' : GoBoard),
      b.play_move p c = .ok (r, b') →
      b'.rows = b.rows ∧ b'.cols = b.cols ∧ b'.diags = b.diags) := by
  refine ⟨fun s h5 => ?_, fun s _ h5 => mkBoard_lines_none s h5,
    play_move_preserves_lines⟩
  exact ⟨rowsOf (rawBoard s), colsOf (rawBoard s), diagsOf (rawBoard s),
    mkBoard_rows s h5, by rw [rowsOf_length, rawBoard_size],
    mkBoard_cols s h5, by rw [colsOf_length, rawBoard_size],
    mkBoard_diags s h5, diagsOf_rawBoard_length s h5⟩

/-- Witness for C5: sizes 7 and 3, and a concrete size-5 `play_move`. -/
theorem C5_line_precomputation_witness :
    (∃ rs cs ds,
      (mkBoard 7).rows = some rs ∧ rs.length = 7 ∧
      (mkBoard 7).cols = some cs ∧ cs.length = 7 ∧
      (mkBoard 7).diags = some ds ∧ ds.length = (2 * (7 - 5) + 1) * 2) ∧
    ((mkBoard 3).rows = none ∧ (mkBoard 3).cols = none ∧
      (mkBoard 3).diags = none) ∧
    ((playChain (mkBoard 5) [(some 7, BLACK)]).rows = (mkBoard 5).rows ∧
      (playChain (mkBoard 5) [(some 7, BLACK)]).cols = (mkBoard 5).cols ∧
      (playChain (mkBoard 5) [(some 7, BLACK)]).diags = (mkBoard 5).diags) :=
  ⟨C5_line_precomputation.1 7 (by decide),
   C5_line_precomputation.2.1 3 (by decide) (by decide),
   C5_line_precomputation.2.2 (mkBoard 5) (some 7) BLACK true _ rfl⟩

theorem playableN_lb (s j : Nat) (h : playableN s j) : s + 2 ≤ j := by
  obtain ⟨r, c, h1, h2, h3, h4, rfl⟩ := h
  have : 1 * (s + 1) ≤ r * (s + 1) := Nat.mul_le_mul_right _ h1
  omega

theorem playableN_ub (s j : Nat) (h : playableN s j) : j ≤ s * (s + 1) + s := by
  obtain ⟨r, c, h1, h2, h3, h4, rfl⟩ := h
  have : r * (s + 1) ≤ s * (s + 1) := Nat.mul_le_mul_right _ h2
  omega

theorem mkBoard_board (s : Nat) : (mkBoard s).board = (rawBoard s).board := by
  rw [mkBoard, GoBoard.reset, calculate_board, calculate_board]

theorem mkBoard_size (s : Nat) : (mkBoard s).size = s := by
  rw [mkBoard, GoBoard.reset, calculate_size, calculate_size, rawBoard_size]

theorem mkBoard_NS (s : Nat) : (mkBoard s).NS = s + 1 := by
  rw [mkBoard, GoBoard.reset, calculate_NS, calculate_NS, rawBoard_NS]

theorem mkBoard_maxpoint (s : Nat) : (mkBoard s).maxpoint = s * s + 3 * (s + 1) := by
  rw [mkBoard, GoBoard.reset, calculate_maxpoint, calculate_maxpoint, rawBoard_maxpoint]

theorem BoardInv_mkBoard (s : Nat) (h2 : 2 ≤ s) : BoardInv (mkBoard s) := by
  refine ⟨by rw [mkBoard_size]; omega, by rw [mkBoard_NS, mkBoard_size],
    by rw [mkBoard_maxpoint, mkBoard_size], ?_, ?_⟩
  · rw [mkBoard_board, mkBoard_maxpoint, rawBoard_board_length]
  · intro i _
    rw [mkBoard_board, mkBoard_size]
    constructor
    · intro hp
      rw [rawBoard_getD_playable s i hp]
      decide
    · intro hp
      exact rawBoard_getD_border s i hp

theorem npGet_eq_some (l : List Color) (p : Int) (v : Color)
    (h : npGet l p = some v) :
    ∃ j : Nat, j < l.length ∧ l.getD j BORDER = v ∧
      ∀ c, npSet l p c = l.set j c := by
  rw [npGet] at h
  by_cases hp : 0 ≤ p
  · rw [if_pos hp] at h
    have hlt : p.toNat < l.length := by
      by_contra hh
      rw [List.get?_eq_none.mpr (by omega)] at h
      cases h
    exact ⟨p.toNat, hlt,
      by rw [List.getD_eq_getElem?_getD, ← List.get?_eq_getElem?, h]; rfl,
      fun c => by rw [npSet, if_pos hp]⟩
  · rw [if_neg hp] at h
    by_cases hn : (l.length : Int) + p < 0
    · rw [if_pos hn] at h; cases h
    · rw [if_neg hn] at h
      have hlt : ((l.length : Int) + p).toNat < l.length := by
        by_contra hh
        rw [List.get?_eq_none.mpr (by omega)] at h
        cases h
      exact ⟨((l.length : Int) + p).toNat, hlt,
        by rw [List.getD_eq_getElem?_getD, ← List.get?_eq_getElem?, h]; rfl,
        fun c => by rw [npSet, if_neg hp]⟩

theorem BoardInv_play_move (b : GoBoard) (p : Option Int) (c : Color) (r : Bool)
    (b' : GoBoard) (hInv : BoardInv b) (h : b.play_move p c = .ok (r, b')) :
    BoardInv b' := by
  obtain ⟨i2, iNS, imp, ilen, icell⟩ := hInv
  rw [GoBoard.play_move.eq_def] at h
  split at h
  · cases h
  next hbw =>
    rw [not_not] at hbw
    split at h
    · injection h with h2
      injection h2 with hr hb
      rw [← hb]
      exact ⟨i2, iNS, imp, ilen, icell⟩
    next q =>
      split at h
      · cases h
      next v hg =>
        split at h
        · injection h with h2
          injection h2 with hr hb
          rw [← hb]
          exact ⟨i2, iNS, imp, ilen, icell⟩
        next hv =>
          rw [not_not] at hv
          injection h with h2
          injection h2 with hr hb
          rw [← hb]
          obtain ⟨j, hj, hjv, hset⟩ := npGet_eq_some b.board q v hg
          have hple : playableN b.size j := by
            by_contra hnp
            have := (icell j (by omega)).2 hnp
            rw [hjv, hv] at this
            cases this
          refine ⟨i2, iNS, imp, ?_, ?_⟩
          · simp only [hset c, List.length_set]
            exact ilen
          · intro i hi
            simp only [hset c]
            by_cases hij : i = j
            · subst hij
              constructor
              · intro _
                rw [getD_set_self b.board i c (by omega)]
                rcases (by simpa [is_black_white] using hbw : c = BLACK ∨ c = WHITE)
                  with rfl | rfl <;> decide
              · intro hnp
                exact absurd hple hnp
            · rw [getD_set_ne b.board j i c hij]
              exact icell i hi

theorem Reachable_BoardInv (b : GoBoard) (h : Reachable b) : BoardInv b := by
  induction h with
  | init s h2 _ => exact BoardInv_mkBoard s h2
  | step b p c r b' _ hp ih => exact BoardInv_play_move b p c r b' ih hp

theorem npGet_nonneg (l : List Color) (j : Int) (h0 : 0 ≤ j)
    (hlt : j.toNat < l.length) :
    npGet l j = some (l.getD j.toNat BORDER) := by
  have hj : ((j.toNat : Nat) : Int) = j := Int.toNat_of_nonneg h0
  rw [← hj]
  exact npGet_nat l j.toNat hlt

theorem walkStep_ok_pos (b : GoBoard) (hInv : BoardInv b) (c : Color)
    (hc : c = BLACK ∨ c = WHITE) (δ : Int) (hδ : 1 ≤ δ)
    (hδ2 : δ ≤ (b.NS : Int) + 1) :
    ∀ (fuel : Nat) (i : Int), 0 ≤ i → playableN b.size i.toNat →
    b.maxpoint - i.toNat < fuel →
    ∃ out : Nat × Nat × Int × Color, walkStep b.board δ c fuel i = .ok out ∧
      out.2.2.2 ≠ c ∧ 0 ≤ out.2.2.1 ∧ out.2.2.1 < (b.maxpoint : Int) := by
  obtain ⟨i2, iNS, imp, ilen, icell⟩ := hInv
  have hNScast : (b.NS : Int) = (b.size : Int) + 1 := by rw [iNS]; push_cast; ring
  have e : b.size * (b.size + 1) = b.size * b.size + b.size := by ring
  intro fuel
  induction fuel with
  | zero => intro i h0 hp hm; omega
  | succ fuel ih =>
    intro i h0 hp hm
    have hi' : ((i.toNat : Nat) : Int) = i := Int.toNat_of_nonneg h0
    have hub := playableN_ub b.size i.toNat hp
    have hj0 : 0 ≤ i + δ := by omega
    have hjlt : (i + δ).toNat < b.maxpoint := by omega
    have hnp : npGet b.board (i + δ) =
        some (b.board.getD (i + δ).toNat BORDER) :=
      npGet_nonneg b.board (i + δ) hj0 (by rw [ilen]; exact hjlt)
    by_cases hvc : b.board.getD (i + δ).toNat BORDER = c
    · have hpj : playableN b.size (i + δ).toNat := by
        by_contra hnpj
        have hB := (icell (i + δ).toNat hjlt).2 hnpj
        rw [hvc] at hB
        rcases hc with rfl | rfl <;> exact absurd hB (by decide)
      obtain ⟨out, hout, hsv, hsi0, hsilt⟩ := ih (i + δ) hj0 hpj (by omega)
      refine ⟨(out.1 + 1, out.2), ?_, hsv, hsi0, hsilt⟩
      rw [walkStep, hnp]
      simp only [if_pos hvc, hout, Except.map]
    · refine ⟨(0, if b.board.getD (i + δ).toNat BORDER = EMPTY then 1 else 0,
        i + δ, b.board.getD (i + δ).toNat BORDER), ?_, hvc, hj0,
        by show i + δ < (b.maxpoint : Int); omega⟩
      rw [walkStep, hnp]
      by_cases hve : b.board.getD (i + δ).toNat BORDER = EMPTY
      · simp only [if_neg hvc, if_pos hve]
      · simp only [if_neg hvc, if_neg hve]

theorem walkStep_ok_neg (b : GoBoard) (hInv : BoardInv b) (c : Color)
    (hc : c = BLACK ∨ c = WHITE) (δ : Int) (hδ : δ ≤ -1)
    (hδ2 : -((b.NS : Int) + 1) ≤ δ) :
    ∀ (fuel : Nat) (i : Int), 0 ≤ i → playableN b.size i.toNat →
    i.toNat < fuel →
    ∃ out : Nat × Nat × Int × Color, walkStep b.board δ c fuel i = .ok out ∧
      out.2.2.2 ≠ c ∧ 0 ≤ out.2.2.1 ∧ out.2.2.1 < (b.maxpoint : Int) := by
  obtain ⟨i2, iNS, imp, ilen, icell⟩ := hInv
  have hNScast : (b.NS : Int) = (b.size : Int) + 1 := by rw [iNS]; push_cast; ring
  have e : b.size * (b.size + 1) = b.size * b.size + b.size := by ring
  intro fuel
  induction fuel with
  | zero => intro i h0 hp hm; omega
  | succ fuel ih =>
    intro i h0 hp hm
    have hi' : ((i.toNat : Nat) : Int) = i := Int.toNat_of_nonneg h0
    have hub := playableN_ub b.size i.toNat hp
    have hlb := playableN_lb b.size i.toNat hp
    have hj0 : 0 ≤ i + δ := by omega
    have hjlt : (i + δ).toNat < b.maxpoint := by omega
    have hnp : npGet b.board (i + δ) =
        some (b.board.getD (i + δ).toNat BORDER) :=
      npGet_nonneg b.board (i + δ) hj0 (by rw [ilen]; exact hjlt)
    by_cases hvc : b.board.getD (i + δ).toNat BORDER = c
    · have hpj : playableN b.size (i + δ).toNat := by
        by_contra hnpj
        have hB := (icell (i + δ).toNat hjlt).2 hnpj
        rw [hvc] at hB
        rcases hc with rfl | rfl <;> exact absurd hB (by decide)
      obtain ⟨out, hout, hsv, hsi0, hsilt⟩ := ih (i + δ) hj0 hpj (by omega)
      refine ⟨(out.1 + 1, out.2), ?_, hsv, hsi0, hsilt⟩
      rw [walkStep, hnp]
      simp only [if_pos hvc, hout, Except.map]
    · refine ⟨(0, if b.board.getD (i + δ).toNat BORDER = EMPTY then 1 else 0,
        i + δ, b.board.getD (i + δ).toNat BORDER), ?_, hvc, hj0,
        by show i + δ < (b.maxpoint : Int); omega⟩
      rw [walkStep, hnp]
      by_cases hve : b.board.getD (i + δ).toNat BORDER = EMPTY
      · simp only [if_neg hvc, if_pos hve]
      · simp only [if_neg hvc, if_neg hve]

theorem probe_ok (b : GoBoard) (hInv : BoardInv b) (c : Color)
    (hc : c = BLACK ∨ c = WHITE) (δ : Int) (hδ1 : 1 ≤ δ)
    (hδ2 : δ ≤ (b.NS : Int) + 1) (i : Int) (h0 : 0 ≤ i)
    (hp : playableN b.size i.toNat) :
    ∃ out : Nat × Nat, probe b δ i c = .ok out := by
  have himp := hInv.2.2.1
  have hilen := hInv.2.2.2.1
  have hiub := playableN_ub b.size i.toNat hp
  have e : b.size * (b.size + 1) = b.size * b.size + b.size := by ring
  obtain ⟨o1, hw1, _, _, _⟩ := walkStep_ok_pos b hInv c hc δ hδ1 hδ2
    (b.maxpoint + 1) i h0 hp (by omega)
  obtain ⟨o2, hw2, _, _, _⟩ := walkStep_ok_neg b hInv c hc (-δ) (by omega)
    (by omega) (b.maxpoint + 1) i h0 hp (by omega)
  refine ⟨(1 + o1.1 + o2.1, o1.2.1 + o2.2.1), ?_⟩
  rw [probe, hw1, hw2]
  rfl

/-- C8, counterexample to the claim as stated: on the (reachable) fresh 5×5
board, the rightward row probe from the playable point 7 stops at cell 8,
which holds EMPTY — neither a non-matching stone (WHITE) nor the BORDER
sentinel.  (The termination and bounds parts of the claim do hold; see the
amended theorem.) -/
theorem C8_stop_cell_counterexample :
    walkStep (mkBoard 5).board 1 BLACK ((mkBoard 5).maxpoint + 1) 7 =
      .ok (0, 1, 8, EMPTY) ∧
    EMPTY ≠ WHITE ∧ EMPTY ≠ BORDER ∧ Reachable (mkBoard 5) :=
  ⟨rfl, by decide, by decide, Reachable.init 5 (by decide) (by decide)⟩

/-- C8, amended: on every reachable board, for every playable point `i` and
move color `c`, all eight directional probe walks (both senses of the four
axes) terminate without exhausting the fuel, every visited index is a valid
slot of the padded array (no IndexError), and the stopping cell does not
hold a matching stone — it is EMPTY, an opposing stone, or BORDER; hence
the four probe functions `checkrow`/`checkcol`/`checkd1`/`checkd2` always
return a value on reachable boards. -/
theorem C8_probe_walks (b : GoBoard) (hr : Reachable b) (i : Int) (c : Color)
    (hpi : playableI b.size i) (hc : c = BLACK ∨ c = WHITE) :
    (∀ δ ∈ ([1, (b.NS : Int), (b.NS : Int) + 1, (b.NS : Int) - 1] : List Int),
      (∃ out : Nat × Nat × Int × Color,
        walkStep b.board δ c (b.maxpoint + 1) i = .ok out ∧
        out.2.2.2 ≠ c ∧ 0 ≤ out.2.2.1 ∧ out.2.2.1 < (b.maxpoint : Int)) ∧
      (∃ out : Nat × Nat × Int × Color,
        walkStep b.board (-δ) c (b.maxpoint + 1) i = .ok out ∧
        out.2.2.2 ≠ c ∧ 0 ≤ out.2.2.1 ∧ out.2.2.1 < (b.maxpoint : Int))) ∧
    (∃ o1, b.checkrow i c = .ok o1) ∧ (∃ o2, b.checkcol i c = .ok o2) ∧
    (∃ o3, b.checkd1 i c = .ok o3) ∧ (∃ o4, b.checkd2 i c = .ok o4) := by
  have hInv := Reachable_BoardInv b hr
  obtain ⟨h0, hp⟩ := hpi
  have hNS3 : (3 : Int) ≤ (b.NS : Int) := by
    have := hInv.1
    have := hInv.2.1
    omega
  have hiub := playableN_ub b.size i.toNat hp
  have himp := hInv.2.2.1
  have e : b.size * (b.size + 1) = b.size * b.size + b.size := by ring
  constructor
  · intro δ hδ
    have hfuelp : b.maxpoint - i.toNat < b.maxpoint + 1 := by omega
    have hfueln : i.toNat < b.maxpoint + 1 := by omega
    simp only [List.mem_cons, List.mem_singleton] at hδ
    rcases hδ with rfl | rfl | rfl | rfl | h
    · exact ⟨walkStep_ok_pos b hInv c hc 1 (by omega) (by omega)
        (b.maxpoint + 1) i h0 hp hfuelp,
        walkStep_ok_neg b hInv c hc (-1) (by omega) (by omega)
        (b.maxpoint + 1) i h0 hp hfueln⟩
    · exact ⟨walkStep_ok_pos b hInv c hc _ (by omega) (by omega)
        (b.maxpoint + 1) i h0 hp hfuelp,
        walkStep_ok_neg b hInv c hc _ (by omega) (by omega)
        (b.maxpoint + 1) i h0 hp hfueln⟩
    · exact ⟨walkStep_ok_pos b hInv c hc _ (by omega) (by omega)
        (b.maxpoint + 1) i h0 hp hfuelp,
        walkStep_ok_neg b hInv c hc _ (by omega) (by omega)
        (b.maxpoint + 1) i h0 hp hfueln⟩
    · exact ⟨walkStep_ok_pos b hInv c hc _ (by omega) (by omega)
        (b.maxpoint + 1) i h0 hp hfuelp,
        walkStep_ok_neg b hInv c hc _ (by omega) (by omega)
        (b.maxpoint + 1) i h0 hp hfueln⟩
    · cases h
  · exact ⟨probe_ok b hInv c hc 1 (by omega) (by omega) i h0 hp,
      probe_ok b hInv c hc _ (by omega) (by omega) i h0 hp,
      probe_ok b hInv c hc _ (by omega) (by omega) i h0 hp,
      probe_ok b hInv c hc _ (by omega) (by omega) i h0 hp⟩

/-- Witness for C8: the row probe on the fresh 5×5 board at point 7. -/
theorem C8_probe_walks_witness :
    ∃ o1, (mkBoard 5).checkrow 7 BLACK = .ok o1 :=
  (C8_probe_walks (mkBoard 5) (Reachable.init 5 (by decide) (by decide)) 7 BLACK
    ⟨by decide, 1, 1, by omega, by rw [mkBoard_size]; decide, by omega,
      by rw [mkBoard_size]; decide, by rw [mkBoard_size]; decide⟩ (Or.inl rfl)).2.1
